import Mathlib

/-!
Verification of the media reference-reorganization and migration pipeline of the
heirlooms-origins application: the reference classifier, the temp-folder blob
mover, the reference-graph rewrite used by `reorganizeArtifactMedia`, the
orphan-cleanup script, the Cloudinary-to-Supabase bulk migrator, and the
derivative-backfill job.  JavaScript `Record<string, string>` objects and
`Map<string, string>` values are embedded as association lists in insertion
order, and the JS falsy semantics of `x || y` on strings (empty string is
falsy) is modelled explicitly where the source relies on it.
-/

set_option maxHeartbeats 1000000

namespace Heirlooms

/-- Split a character list at the first occurrence of `c`: returns the part
before and the part after that occurrence. -/
def splitAtChar (c : Char) : List Char → Option (List Char × List Char)
  | [] => none
  | x :: xs =>
    if x = c then some ([], xs)
    else (splitAtChar c xs).map (fun p => (x :: p.1, p.2))

/-- Does `pat` occur as a contiguous sublist of `l`?  Embeds JS
`String.prototype.includes` on the underlying character lists. -/
def containsSub (pat : List Char) : List Char → Bool
  | [] => pat.isEmpty
  | l@(_ :: xs) => pat.isPrefixOf l || containsSub pat xs

/-- JS `url.includes(pat)`. -/
def substrB (pat s : String) : Bool := containsSub pat.data s.data

/-- Deduplicate preserving first occurrences: embeds `[...new Set(list)]`. -/
def dedupFirst (l : List String) : List String :=
  l.foldl (fun acc u => if u ∈ acc then acc else acc ++ [u]) []

/-! ## Reference Classifier (scripts/backfill migration SQL helpers and
`getFileExtension` from the Cloudinary migration script) -/

/-- Case-insensitive extension match embedding the SQL regex
`url ~* '\.(e1|e2|...)(\?|$)'` of `detect_media_type`: the URL, lowercased,
either ends with `.ext` or contains `.ext?`. -/
def extMatch (url : String) (exts : List String) : Bool :=
  exts.any (fun e =>
    url.toLower.endsWith ("." ++ e) || substrB ("." ++ e ++ "?") url.toLower)

/-- `detect_media_type` from the backfill migration SQL: extension lists per
kind, defaulting to `image` when nothing matches. -/
def detect_media_type (url : String) : String :=
  if extMatch url ["jpg", "jpeg", "png", "gif", "webp", "heic", "heif"] then "image"
  else if extMatch url ["mp4", "mov", "avi", "mkv", "m4v", "flv", "wmv", "webm"] then "video"
  else if extMatch url ["mp3", "wav", "m4a", "aac", "ogg", "opus"] then "audio"
  else "image"

/-- `detect_mime_type` from the backfill migration SQL: a second-level switch
on extension within the detected kind, with one fixed default per kind. -/
def detect_mime_type (url : String) : String :=
  match detect_media_type url with
  | "image" =>
    if extMatch url ["png"] then "image/png"
    else if extMatch url ["gif"] then "image/gif"
    else if extMatch url ["webp"] then "image/webp"
    else if extMatch url ["heic"] then "image/heic"
    else if extMatch url ["heif"] then "image/heif"
    else "image/jpeg"
  | "video" =>
    if extMatch url ["mp4"] then "video/mp4"
    else if extMatch url ["mov"] then "video/quicktime"
    else if extMatch url ["avi"] then "video/x-msvideo"
    else if extMatch url ["mkv"] then "video/x-matroska"
    else if extMatch url ["webm"] then "video/webm"
    else "video/mp4"
  | "audio" =>
    if extMatch url ["mp3"] then "audio/mpeg"
    else if extMatch url ["wav"] then "audio/wav"
    else if extMatch url ["m4a"] then "audio/mp4"
    else if extMatch url ["aac"] then "audio/aac"
    else if extMatch url ["ogg"] then "audio/ogg"
    else if extMatch url ["opus"] then "audio/opus"
    else "audio/mpeg"
  | _ => "application/octet-stream"

/-- `extract_filename_from_url` from the backfill migration SQL:
`substring(url from '/([^/]+)$')`, i.e. the nonempty tail after the last
slash, falling back to the literal `"unknown"` when there is no match. -/
def extract_filename_from_url (url : String) : String :=
  match splitAtChar '/' url.data.reverse with
  | none => "unknown"
  | some p => if p.1.isEmpty then "unknown" else String.mk p.1.reverse

/-- Model of the platform WHATWG `new URL(url).pathname` used by
`getFileExtension` (the URL constructor is an external platform
collaborator).  The constructor throws — rendered as `none` — exactly when
the input has no valid scheme: no `:` at all (so in particular on the empty
string or a bare path), an empty scheme, or a scheme with characters outside
ALPHA *( ALPHA / DIGIT / "+" / "-" / "." ).  Any input with a valid scheme
parses: for the special schemes (`http`, `https`, `ws`, `wss`, `ftp`,
`file`) the parser skips any leading slashes and backslashes, reads the
authority up to the next `/`, and the pathname is from that `/` to the first
`?` or `#` (a bare `https:host` thus has pathname `/`, as on the platform);
for every other scheme (`mailto:x`, `data:...`) the pathname is the opaque
remainder up to the first `?` or `#`.  Host canonicalization and the
empty-host failure of special schemes are not modelled; the program only
ever passes full Cloudinary/Supabase URLs, on which the model and the
platform agree. -/
def urlPathname (url : String) : Option String :=
  match splitAtChar ':' url.data with
  | none => none
  | some (scheme, rest) =>
    if scheme.isEmpty then none
    else if !(scheme.headD ' ').isAlpha then none
    else if !scheme.all (fun c => c.isAlphanum || c = '+' || c = '-' || c = '.') then none
    else
      let noFrag := rest.takeWhile (fun c => c ≠ '#')
      let noQuery := noFrag.takeWhile (fun c => c ≠ '?')
      let low := scheme.map Char.toLower
      if low = "http".data || low = "https".data || low = "ws".data ||
          low = "wss".data || low = "ftp".data || low = "file".data then
        let afterSlashes := noQuery.dropWhile (fun c => c = '/' || c = '\\')
        match splitAtChar '/' afterSlashes with
        | none => some "/"
        | some p => some (String.mk ('/' :: p.2))
      else some (String.mk noQuery)

/-- `getFileExtension` from the Cloudinary migration script.  `new URL(url)`
throwing is rendered as `Except.error`; everything below mirrors
`urlPath.split(".").pop()?.toLowerCase() || ""` and the fixed fallbacks. -/
def getFileExtension (url : String) : Except String String :=
  match urlPathname url with
  | none => Except.error "Invalid URL"
  | some urlPath =>
    let ext := ((urlPath.splitOn ".").getLastD "").toLower
    if ["jpg", "jpeg", "png", "gif", "webp", "heic", "heif", "mp4", "mov", "avi",
        "mkv", "webm", "mp3", "wav", "m4a", "aac", "ogg"].contains ext then
      Except.ok ext
    else if substrB "/video/upload/" url then Except.ok "mp4"
    else Except.ok "jpg"

/-! ## Reference Graph Model and the rewrite of `reorganizeArtifactMedia`
(`lib/actions/media-reorganize.ts`) -/

/-- First-match lookup in an association list: embeds both
`Map.prototype.get` and JS object property lookup (both structures keep keys
unique, so first match is the match). -/
def mapGet (m : List (String × String)) (k : String) : Option String :=
  match m with
  | [] => none
  | p :: rest => if p.1 = k then some p.2 else mapGet rest k

/-- `urlMapping.get(url) || url`: the mapped value unless it is absent or the
JS-falsy empty string. -/
def getOrFalsy (m : List (String × String)) (k : String) : String :=
  match mapGet m k with
  | some v => if v = "" then k else v
  | none => k

/-- JS object property assignment `obj[k] = v`: replaces the value at an
existing key in place, otherwise appends the new key at the end. -/
def jsAssign (m : List (String × String)) (k v : String) : List (String × String) :=
  match m with
  | [] => [(k, v)]
  | p :: rest => if p.1 = k then (k, v) :: rest else p :: jsAssign rest k v

/-- Re-keying of a JSONB map as done for `image_captions`,
`video_summaries` and `audio_transcripts`:
`for (const [oldUrl, v] of Object.entries(obj)) updated[newUrl] = v` with
`newUrl = urlMapping.get(oldUrl) || oldUrl`. -/
def rewriteJsObject (m obj : List (String × String)) : List (String × String) :=
  obj.foldl (fun acc p => jsAssign acc (getOrFalsy m p.1) p.2) []

/-- Every place a media URL can appear on one artifact row: the media-block
list `media_urls`, the nullable `thumbnail_url`, and the three JSONB maps
keyed by URL.  A SQL `NULL` JSONB map and an empty object rewrite
identically, so both are embedded as `[]`. -/
structure RefGraph where
  media_urls : List String
  thumbnail_url : Option String
  image_captions : List (String × String)
  video_summaries : List (String × String)
  audio_transcripts : List (String × String)
deriving DecidableEq, Repr

/-- Thumbnail update of `reorganizeArtifactMedia` (lines 149-153):
`if (artifact.thumbnail_url && urlMapping.has(t)) updateData.thumbnail_url =
urlMapping.get(t)` — replaced only when truthy and present in the mapping,
otherwise kept. -/
def thumbRewrite (m : List (String × String)) : Option String → Option String
  | none => none
  | some t =>
    if t = "" then some t
    else match mapGet m t with
      | some v => some v
      | none => some t

/-- The pure reference-rewrite at the heart of `reorganizeArtifactMedia`
(lines 107-153): `media_urls` via `urlMapping.get(url) || url`, each JSONB
map re-keyed, and `thumbnail_url` via `thumbRewrite`. -/
def rewriteGraph (g : RefGraph) (m : List (String × String)) : RefGraph :=
  { media_urls := g.media_urls.map (getOrFalsy m)
    thumbnail_url := thumbRewrite m g.thumbnail_url
    image_captions := rewriteJsObject m g.image_captions
    video_summaries := rewriteJsObject m g.video_summaries
    audio_transcripts := rewriteJsObject m g.audio_transcripts }

/-- `isSupabaseStorageUrl` (as defined alongside the migration scripts and
`lib/media`): substring test for the Supabase public-object URL shape. -/
def isSupabaseStorageUrl (url : String) : Bool :=
  substrB "supabase.co/storage/v1/object/public/" url

/-- A row of the `user_media` (CanonicalMedia) table, the fields touched by
the pipeline. -/
structure UserMediaRow where
  id : String
  user_id : String
  storage_path : String
  public_url : String
deriving DecidableEq, Repr

/-- The `user_media` update loop shared by `reorganizeArtifactMedia` and
`migrateArtifactMedia`: for each `(oldUrl, newUrl)` mapping entry, every row
with `public_url = oldUrl` owned by `caller` gets both `public_url` and
`storage_path` set to `newUrl`. -/
def applyUserMediaUpdates (caller : String) (mapping : List (String × String))
    (rows : List UserMediaRow) : List UserMediaRow :=
  mapping.foldl
    (fun rs p =>
      rs.map (fun r =>
        if r.public_url = p.1 && r.user_id = caller then
          { r with public_url := p.2, storage_path := p.2 }
        else r))
    rows

/-- The deduplicated union of media-block URLs and gallery URLs collected by
`reorganizeArtifactMedia` step 2: `[...new Set([...mediaBlockUrls, ...galleryUrls])]`. -/
def reorgAllUrls (g : RefGraph) (galleryUrls : List String) : List String :=
  dedupFirst (g.media_urls ++ galleryUrls)

/-- The `urlMapping` accumulation loop of `reorganizeArtifactMedia`
(lines 89-105): only Supabase-storage URLs are passed to the mover; a mover
error or falsy result URL records an error and adds no entry; a result equal
to the input adds no entry; only genuine relocations enter the mapping.
The mover (`moveSupabaseFile`) is the storage collaborator, abstracted as a
function from URL to `Option` of the resulting public URL. -/
def buildMapping (mover : String → Option String) (allUrls : List String) :
    List (String × String) :=
  allUrls.foldl
    (fun acc u =>
      if isSupabaseStorageUrl u then
        match mover u with
        | none => acc
        | some n => if n = "" then acc else if n = u then acc else acc ++ [(u, n)]
      else acc)
    []

/-- `reorganizeArtifactMedia` after authorization and loading: build the
mapping over the URL union; when at least one file moved, rewrite the
artifact row in one update and then update the caller's `user_media` rows;
otherwise leave every record untouched. -/
def reorganizeArtifactMedia (g : RefGraph) (rows : List UserMediaRow)
    (galleryUrls : List String) (caller : String)
    (mover : String → Option String) : RefGraph × List UserMediaRow :=
  let mapping := buildMapping mover (reorgAllUrls g galleryUrls)
  if mapping = [] then (g, rows)
  else (rewriteGraph g mapping, applyUserMediaUpdates caller mapping rows)

/-! ## Blob Mover and the temp-folder migration script
(`scripts/migrate-temp-media.ts`) -/

/-- Tail of the leftmost match of `/\/public\/[^/]+\/(.+)$/` starting exactly
here: after the literal `/public/` there must be a nonempty slash-free
segment, a slash, and a nonempty remainder running to the end of the string. -/
def publicTail (l : List Char) : Option (List Char) :=
  match splitAtChar '/' l with
  | none => none
  | some p => if p.1.isEmpty || p.2.isEmpty then none else some p.2

/-- Scan for the leftmost start position where the whole regex
`/\/public\/[^/]+\/(.+)$/` matches, as the JS regex engine does. -/
def scanPublic : List Char → Option (List Char)
  | [] => none
  | l@(_ :: xs) =>
    if ("/public/".data).isPrefixOf l then
      match publicTail (l.drop 8) with
      | some cap => some cap
      | none => scanPublic xs
    else scanPublic xs

/-- `extractPathFromUrl`: first capture group of
`url.match(/\/public\/[^/]+\/(.+)$/)`, `null` when there is no match. -/
def extractPathFromUrl (url : String) : Option String :=
  (scanPublic url.data).map String.mk

/-- `getPublicUrl(path)`:
`${SUPABASE_URL}/storage/v1/object/public/${STORAGE_BUCKET}/${path}` with the
bucket `heirlooms-media`.  `SUPABASE_URL` is environment configuration, kept
as the `supa` parameter. -/
def getPublicUrl (supa path : String) : String :=
  supa ++ "/storage/v1/object/public/heirlooms-media/" ++ path

/-- `isTempUrl`: a Supabase URL still under the temp-folder prefix. -/
def isTempUrl (url : String) : Bool :=
  substrB "supabase" url && substrB "/temp/" url

/-- `currentPath.split("/").pop()`: the (possibly empty) segment after the
last slash, or the whole string when it has no slash. -/
def lastSegment (s : String) : String :=
  match splitAtChar '/' s.data.reverse with
  | none => s
  | some p => String.mk p.1.reverse

/-- The destination path `${artifact.user_id}/${artifact.id}/${filename}`. -/
def destPath (uid aid currentPath : String) : String :=
  uid ++ "/" ++ aid ++ "/" ++ lastSegment currentPath

/-- The copy-then-delete step of the move loop of `migrateArtifactMedia`.
Storage is the object-store collaborator, embedded as the list of existing
object paths with the contract of the copy primitive: copying onto an
existing destination fails with "already exists" (which the script treats as
success and resolves to the destination's public URL), copying from a
missing source fails, and a successful copy is followed by a best-effort
delete of the source. -/
def moveCopyStep (supa : String) (st : List String) (currentPath uid aid : String) :
    List String × Option String :=
  if st.contains (destPath uid aid currentPath) then
    (st, some (getPublicUrl supa (destPath uid aid currentPath)))
  else if st.contains currentPath then
    ((st ++ [destPath uid aid currentPath]).erase currentPath,
      some (getPublicUrl supa (destPath uid aid currentPath)))
  else (st, none)

/-- One iteration of the move loop of `migrateArtifactMedia`
(lines 132-187): path extraction (an invalid URL records an error), then the
copy-then-delete step.  Returns the storage state and the new public URL
recorded in `urlMapping` (or `none` when the URL produced an error). -/
def moveTempFile (supa : String) (st : List String) (tempUrl uid aid : String) :
    List String × Option String :=
  match extractPathFromUrl tempUrl with
  | none => (st, none)
  | some currentPath => moveCopyStep supa st currentPath uid aid

/-- `Map.prototype.set`: overwrite an existing key in place, else append. -/
def mapSet (m : List (String × String)) (k v : String) : List (String × String) :=
  jsAssign m k v

/-- The artifact-row update of `migrateArtifactMedia` (lines 190-235), which
differs from the reorganize action on the thumbnail: it uses
`artifact.thumbnail_url ? urlMapping.get(thumbnail) || thumbnail : null`,
so a JS-falsy empty thumbnail collapses to `null` and the lookup uses the
falsy-`||` form rather than `has`/`get`. -/
def rewriteGraphTempMig (g : RefGraph) (m : List (String × String)) : RefGraph :=
  { media_urls := g.media_urls.map (getOrFalsy m)
    thumbnail_url :=
      match g.thumbnail_url with
      | none => none
      | some t => if t = "" then none else some (getOrFalsy m t)
    image_captions := rewriteJsObject m g.image_captions
    video_summaries := rewriteJsObject m g.video_summaries
    audio_transcripts := rewriteJsObject m g.audio_transcripts }

/-- An artifact as selected by `findArtifactsWithTempMedia`, together with
the temp URLs it collected: `media_urls` entries that are temp URLs plus the
thumbnail when it is a temp URL not already collected. -/
structure TempMigArtifact where
  id : String
  user_id : String
  graph : RefGraph
deriving DecidableEq, Repr

/-- The `tempUrls` collection of `findArtifactsWithTempMedia` (lines 89-114). -/
def tempUrlsOf (g : RefGraph) : List String :=
  let fromMedia := g.media_urls.filter isTempUrl
  match g.thumbnail_url with
  | some t => if isTempUrl t && !(fromMedia.contains t) then fromMedia ++ [t] else fromMedia
  | none => fromMedia

/-- Result state of one `migrateArtifactMedia` run. -/
structure TempMigResult where
  storage : List String
  graph : RefGraph
  rows : List UserMediaRow
  mapping : List (String × String)
deriving Repr

/-- The move loop of `migrateArtifactMedia`: fold the per-URL move over the
collected temp URLs, threading the storage state and accumulating the
`urlMapping`. -/
def tempMigMoved (supa : String) (storage : List String) (a : TempMigArtifact) :
    List String × List (String × String) :=
  (tempUrlsOf a.graph).foldl
    (fun acc tempUrl =>
      match moveTempFile supa acc.1 tempUrl a.user_id a.id with
      | (st, some newUrl) => (st, mapSet acc.2 tempUrl newUrl)
      | (st, none) => (st, acc.2))
    (storage, [])

/-- `migrateArtifactMedia` in execute mode: move every collected temp URL,
then (when at least one file moved) rewrite the artifact row and update the
owner's `user_media` rows with `public_url` and `storage_path` both set to
the full new public URL. -/
def migrateArtifactMedia (supa : String) (storage : List String)
    (a : TempMigArtifact) (rows : List UserMediaRow) : TempMigResult :=
  if (tempMigMoved supa storage a).2 = [] then
    { storage := (tempMigMoved supa storage a).1, graph := a.graph
      rows := rows, mapping := (tempMigMoved supa storage a).2 }
  else
    { storage := (tempMigMoved supa storage a).1
      graph := rewriteGraphTempMig a.graph (tempMigMoved supa storage a).2
      rows := applyUserMediaUpdates a.user_id (tempMigMoved supa storage a).2 rows
      mapping := (tempMigMoved supa storage a).2 }

/-! ## Derivative Backfill (`scripts/backfill-media-derivatives.ts`) -/

/-- `isCloudinaryUrl`: substring test for the legacy delivery backend. -/
def isCloudinaryUrl (url : String) : Bool := substrB "cloudinary.com" url

/-- `isVideoUrl` of the backfill script: extension substring test (note:
`includes`, not suffix match) or the `/video/upload/` marker. -/
def isVideoUrl (url : String) : Bool :=
  ([".mp4", ".mov", ".avi", ".mkv", ".m4v", ".flv", ".wmv", ".webm"].any
    (fun e => substrB e url.toLower)) || substrB "/video/upload/" url

/-- Split at the first occurrence of the pattern `pat`: the part before and
the part after the pattern.  Embeds `indexOf` plus `substring`. -/
def splitFirst (pat : List Char) : List Char → Option (List Char × List Char)
  | [] => if pat.isEmpty then some ([], []) else none
  | l@(x :: xs) =>
    if pat.isPrefixOf l then some ([], l.drop pat.length)
    else (splitFirst pat xs).map (fun p => (x :: p.1, p.2))

/-- JS `String.prototype.replace` with a string pattern: replace only the
first occurrence. -/
def replaceFirstL (pat repl : List Char) : List Char → List Char
  | [] => []
  | l@(x :: xs) =>
    if pat.isPrefixOf l then repl ++ l.drop pat.length
    else x :: replaceFirstL pat repl xs

/-- The test `/^v\d+\//.test(afterUpload)`: a `v`, one or more digits, `/`. -/
def startsVNum (l : List Char) : Bool :=
  match l with
  | 'v' :: rest =>
    let digits := rest.takeWhile Char.isDigit
    !digits.isEmpty && (match rest.drop digits.length with
      | '/' :: _ => true
      | _ => false)
  | _ => false

/-- `v\d+\/.+` anchored here and running to the end: a `v`, digits, `/`, and
at least one further character. -/
def isVersionTail (l : List Char) : Bool :=
  match l with
  | 'v' :: rest =>
    let digits := rest.takeWhile Char.isDigit
    !digits.isEmpty && (match rest.drop digits.length with
      | '/' :: t => !t.isEmpty
      | _ => false)
  | _ => false

/-- The lazy match `afterUpload.match(/^(.+?)(v\d+\/.+)$/)`: the shortest
nonempty prefix whose complement matches `v\d+\/.+` to the end. -/
def lazySplit : List Char → Option (List Char × List Char)
  | [] => none
  | x :: xs =>
    if isVersionTail xs then some ([x], xs)
    else (lazySplit xs).map (fun p => (x :: p.1, p.2))

/-- `getCloudinaryTransformUrl(url, transformations)` from the backfill
script (lines 658-682): insert-or-replace the transformation segment after
`/upload/`. -/
def getCloudinaryTransformUrl (url trans : String) : String :=
  match splitFirst "/upload/".data url.data with
  | none => url
  | some p =>
    let ins := ("/upload/" ++ trans ++ "/").data
    if startsVNum p.2 then String.mk (replaceFirstL "/upload/".data ins url.data)
    else match lazySplit p.2 with
      | some q => String.mk (replaceFirstL ("/upload/".data ++ q.1) ins url.data)
      | none => String.mk (replaceFirstL "/upload/".data ins url.data)

/-- A stored `{thumb, medium, large}` derivative triple. -/
structure Deriv where
  thumb : String
  medium : String
  large : String
deriving DecidableEq, Repr

/-- First-match lookup in a derivative map (JS object keyed by URL). -/
def derivGet (m : List (String × Deriv)) (k : String) : Option Deriv :=
  match m with
  | [] => none
  | p :: rest => if p.1 = k then some p.2 else derivGet rest k

/-- JS object assignment for derivative maps. -/
def derivAssign (m : List (String × Deriv)) (k : String) (v : Deriv) :
    List (String × Deriv) :=
  match m with
  | [] => [(k, v)]
  | p :: rest => if p.1 = k then (k, v) :: rest else p :: derivAssign rest k v

/-- `generateDerivatives(url)`: `null` for non-Cloudinary URLs, otherwise the
fixed thumb/medium/large transformation presets (video thumbs use the poster
frame preset). -/
def generateDerivatives (url : String) : Option Deriv :=
  if !isCloudinaryUrl url then none
  else
    let thumbTransform :=
      if isVideoUrl url then "w_400,h_400,c_fill,so_1.0,du_0,f_jpg,q_auto"
      else "w_400,h_400,c_fill,q_auto,f_auto"
    some
      { thumb := getCloudinaryTransformUrl url thumbTransform
        medium := getCloudinaryTransformUrl url "w_1024,c_limit,q_auto,f_auto"
        large := getCloudinaryTransformUrl url "w_1600,c_limit,q_auto,f_auto" }

/-- An artifact as seen by the backfill job. -/
structure BackfillArtifact where
  id : String
  media_urls : List String
  media_derivatives : List (String × Deriv)
deriving DecidableEq, Repr

/-- `backfillArtifact` (lines 751-798), the derivative map it persists:
start from a copy of the existing map, and for each Cloudinary URL of the
artifact add a generated triple only when the URL has no entry yet. -/
def backfillArtifact (a : BackfillArtifact) : List (String × Deriv) :=
  (a.media_urls.filter isCloudinaryUrl).foldl
    (fun nd url =>
      if (derivGet nd url).isSome then nd
      else match generateDerivatives url with
        | some d => derivAssign nd url d
        | none => nd)
    a.media_derivatives

/-! ## Orphan Scanner (`scripts/cleanup-orphaned-media.ts`, the variant with
the legacy-artifact sub-scan) -/

/-- An `artifact_media` join row. -/
structure ArtifactMediaRow where
  id : String
  artifact_id : String
  media_id : String
deriving DecidableEq, Repr

/-- An `artifacts` row as read by the legacy sub-scan. -/
structure LegacyArtifactRow where
  id : String
  title : String
  graph : RefGraph
deriving DecidableEq, Repr

/-- The whole state the cleanup script can read or mutate: the three tables
plus the blob store (as the set of URLs whose HEAD probe succeeds). -/
structure CleanupDB where
  user_media : List UserMediaRow
  artifact_media : List ArtifactMediaRow
  artifacts : List LegacyArtifactRow
  blobs : List String
deriving Repr

/-- `checkUrlExists` (HEAD probe, with the per-run cache): liveness is
membership in the blob store; the cache only avoids repeated probes and does
not change the answer. -/
def checkUrlExists (db : CleanupDB) (url : String) : Bool :=
  db.blobs.contains url

/-- `findOrphanedUserMedia`: `user_media` rows whose public URL fails the
liveness probe. -/
def findOrphanedUserMedia (db : CleanupDB) : List UserMediaRow :=
  db.user_media.filter (fun m => !(checkUrlExists db m.public_url))

/-- `findOrphanedArtifactMedia` (manual lookup method): join rows whose
`media_id` is not the id of any `user_media` row. -/
def findOrphanedArtifactMedia (db : CleanupDB) : List ArtifactMediaRow :=
  db.artifact_media.filter
    (fun am => !((db.user_media.map (fun m => m.id)).contains am.media_id))

/-- The per-artifact cleanup record built by
`findLegacyArtifactsWithBrokenMedia` (lines 227-290). -/
structure LegacyArtifactCleanup where
  artifactId : String
  brokenUrls : List String
  cleanedMediaUrls : List String
  cleanedThumbnailUrl : Option String
  cleanedImageCaptions : List (String × String)
  cleanedVideoSummaries : List (String × String)
  cleanedAudioTranscripts : List (String × String)
deriving Repr

/-- The set of broken URLs over all legacy artifacts: every URL appearing in
a media list or thumbnail that fails the liveness probe. -/
def legacyBrokenUrls (db : CleanupDB) : List String :=
  (db.artifacts.foldl
    (fun acc a =>
      let withMedia := acc ++ a.graph.media_urls
      match a.graph.thumbnail_url with
      | some t => withMedia ++ [t]
      | none => withMedia)
    []).filter (fun u => !(checkUrlExists db u))

/-- One artifact's cleanup record: media list and JSONB keys filtered of
broken URLs; a broken thumbnail replaced by the first surviving media URL. -/
def legacyCleanupOf (broken : List String) (a : LegacyArtifactRow) :
    LegacyArtifactCleanup :=
  let artifactBroken :=
    (a.graph.media_urls.filter (fun u => broken.contains u)) ++
      (match a.graph.thumbnail_url with
       | some t => if broken.contains t then [t] else []
       | none => [])
  let cleanedMedia := a.graph.media_urls.filter (fun u => !(broken.contains u))
  { artifactId := a.id
    brokenUrls := artifactBroken
    cleanedMediaUrls := cleanedMedia
    cleanedThumbnailUrl :=
      match a.graph.thumbnail_url with
      | some t => if broken.contains t then cleanedMedia.head? else some t
      | none => none
    cleanedImageCaptions := a.graph.image_captions.filter (fun p => !(broken.contains p.1))
    cleanedVideoSummaries := a.graph.video_summaries.filter (fun p => !(broken.contains p.1))
    cleanedAudioTranscripts := a.graph.audio_transcripts.filter (fun p => !(broken.contains p.1)) }

/-- `findLegacyArtifactsWithBrokenMedia`: cleanup records for every artifact
holding at least one broken URL. -/
def findLegacyArtifactsWithBrokenMedia (db : CleanupDB) : List LegacyArtifactCleanup :=
  let broken := legacyBrokenUrls db
  (db.artifacts.map (legacyCleanupOf broken)).filter
    (fun c => !c.brokenUrls.isEmpty)

/-- `deleteOrphanedRecords`: remove the given join rows first, then the
given `user_media` rows. -/
def deleteOrphanedRecords (db : CleanupDB) (userMediaIds artifactMediaIds : List String) :
    CleanupDB :=
  { db with
    artifact_media := db.artifact_media.filter (fun am => !(artifactMediaIds.contains am.id))
    user_media := db.user_media.filter (fun m => !(userMediaIds.contains m.id)) }

/-- `cleanupLegacyArtifacts`: rewrite each listed artifact row with its
cleaned fields. -/
def cleanupLegacyArtifacts (db : CleanupDB) (items : List LegacyArtifactCleanup) :
    CleanupDB :=
  { db with
    artifacts :=
      items.foldl
        (fun arts item =>
          arts.map (fun a =>
            if a.id = item.artifactId then
              { a with graph :=
                { media_urls := item.cleanedMediaUrls
                  thumbnail_url := item.cleanedThumbnailUrl
                  image_captions := item.cleanedImageCaptions
                  video_summaries := item.cleanedVideoSummaries
                  audio_transcripts := item.cleanedAudioTranscripts } }
            else a))
        db.artifacts }

/-- `main` of the cleanup script: `--delete` sets `shouldDelete`; dry run is
the default (`isDryRun = !shouldDelete || args.includes("--dry-run")`).  Both
sub-scans always run; the destructive phase runs only out of dry-run mode and
when something was found. -/
def cleanupMain (shouldDelete dryRunFlag : Bool) (db : CleanupDB) : CleanupDB :=
  let isDryRun := !shouldDelete || dryRunFlag
  let orphanedUserMedia := findOrphanedUserMedia db
  let orphanedArtifactMedia := findOrphanedArtifactMedia db
  let orphanedUserMediaIds := orphanedUserMedia.map (fun m => m.id)
  let linkedArtifactMedia :=
    db.artifact_media.filter (fun am => orphanedUserMediaIds.contains am.media_id)
  let uniqueArtifactMediaIds :=
    dedupFirst ((orphanedArtifactMedia ++ linkedArtifactMedia).map (fun am => am.id))
  let legacyCleanupList := findLegacyArtifactsWithBrokenMedia db
  let hasOrphans :=
    !orphanedUserMedia.isEmpty || !uniqueArtifactMediaIds.isEmpty ||
      !legacyCleanupList.isEmpty
  if !hasOrphans then db
  else if isDryRun then db
  else
    let db1 :=
      if !orphanedUserMedia.isEmpty || !uniqueArtifactMediaIds.isEmpty then
        deleteOrphanedRecords db orphanedUserMediaIds uniqueArtifactMediaIds
      else db
    if !legacyCleanupList.isEmpty then cleanupLegacyArtifacts db1 legacyCleanupList
    else db1

/-! ## Bulk Migrator (`scripts/migrate-cloudinary-to-supabase.ts`) -/

/-- An artifact row as read by the Cloudinary migrator. -/
structure CloudArtifact where
  id : String
  user_id : String
  title : String
  graph : RefGraph
deriving DecidableEq, Repr

/-- The eligibility filter of `findArtifactsToMigrate`: at least one
Cloudinary URL among `media_urls`, or a truthy Cloudinary thumbnail. -/
def hasCloudinaryMedia (a : CloudArtifact) : Bool :=
  a.graph.media_urls.any isCloudinaryUrl ||
    (match a.graph.thumbnail_url with
     | some t => t ≠ "" && isCloudinaryUrl t
     | none => false)

/-- The per-artifact URL set of `migrateArtifact` (lines 665-677): Cloudinary
media URLs plus a Cloudinary thumbnail, deduplicated in insertion order. -/
def cloudUrlsOf (a : CloudArtifact) : List String :=
  dedupFirst
    (a.graph.media_urls.filter isCloudinaryUrl ++
      (match a.graph.thumbnail_url with
       | some t => if t ≠ "" && isCloudinaryUrl t then [t] else []
       | none => []))

/-- Outcome of the two collaborator calls for one URL: the Cloudinary
download and the Supabase upload. -/
inductive MigOutcome where
  | downloadFail
  | uploadFail
  | ok (newUrl : String)
deriving DecidableEq, Repr

/-- Result record of `migrateArtifact` for one artifact. -/
structure MigrationResult where
  artifactId : String
  artifactTitle : String
  totalUrls : Nat
  migratedUrls : Nat
  errors : List String
  urlMappings : List (String × String)
deriving DecidableEq, Repr

/-- `migrateArtifact` in execute mode (lines 650-744), result part: per-URL
failures are pushed onto the artifact's own error list and the loop
continues; successes record the URL mapping. -/
def migrateArtifact (outcome : String → MigOutcome) (a : CloudArtifact) :
    MigrationResult :=
  let urls := cloudUrlsOf a
  urls.foldl
    (fun res oldUrl =>
      match outcome oldUrl with
      | MigOutcome.downloadFail =>
        { res with errors := res.errors ++ ["Failed to download: " ++ oldUrl] }
      | MigOutcome.uploadFail =>
        { res with errors := res.errors ++ ["Failed to upload: " ++ oldUrl] }
      | MigOutcome.ok newUrl =>
        { res with
          urlMappings := mapSet res.urlMappings oldUrl newUrl
          migratedUrls := res.migratedUrls + 1 })
    { artifactId := a.id, artifactTitle := a.title, totalUrls := urls.length
      migratedUrls := 0, errors := [], urlMappings := [] }

/-- `updateArtifactUrls` (lines 749-793), the artifact-row part: the same
rewrite as the reorganize action (media list via `get(url) || url`, JSONB
maps re-keyed, thumbnail via `has`/`get`).  The `user_media` part of the
same function (lines 811-822) is `updateUserMediaRecords` below. -/
def updateArtifactUrls (a : CloudArtifact) (m : List (String × String)) :
    CloudArtifact :=
  { a with graph := rewriteGraph a.graph m }

/-- The `user_media` loop of `updateArtifactUrls` (lines 811-822): for each
`(oldUrl, newUrl)` mapping entry, every row with `public_url = oldUrl` —
this script applies no user filter — gets `public_url` and `storage_path`
both set to `newUrl`. -/
def updateUserMediaRecords (urlMappings : List (String × String))
    (rows : List UserMediaRow) : List UserMediaRow :=
  urlMappings.foldl
    (fun rs p =>
      rs.map (fun r =>
        if r.public_url = p.1 then
          { r with public_url := p.2, storage_path := p.2 }
        else r))
    rows

/-- The database effect of `migrateArtifact` on the artifact's own row:
`updateArtifactUrls` runs only when at least one mapping was recorded. -/
def migrateArtifactDbUpdate (outcome : String → MigOutcome) (a : CloudArtifact) :
    CloudArtifact :=
  let res := migrateArtifact outcome a
  if res.urlMappings = [] then a else updateArtifactUrls a res.urlMappings

/-- The working-set selection of `migrateCloudinaryToSupabase`
(lines 843-854): filter to eligible artifacts, then
`if (limit && limit < artifacts.length) artifacts = artifacts.slice(0, limit)` —
note that a `--limit=0` is JS-falsy and disables the cap. -/
def selectArtifacts (db : List CloudArtifact) (limit : Option Nat) :
    List CloudArtifact :=
  let arts := db.filter hasCloudinaryMedia
  match limit with
  | some n => if n ≠ 0 && n < arts.length then arts.take n else arts
  | none => arts

/-- The migration loop's effect on the artifacts table: each selected
artifact is migrated in turn, updating its row by id. -/
def runMigratorDb (db : List CloudArtifact) (limit : Option Nat)
    (outcome : String → MigOutcome) : List CloudArtifact :=
  (selectArtifacts db limit).foldl
    (fun cur a =>
      cur.map (fun b => if b.id = a.id then migrateArtifactDbUpdate outcome a else b))
    db

/-- The batch-level output of `migrateCloudinaryToSupabase` in execute mode:
the per-artifact results, the summary, and the process exit code (0 via the
final `.then(() => process.exit(0))`, 1 only on a scope-level throw such as
`findArtifactsToMigrate` failing). -/
structure BatchOutput where
  results : List MigrationResult
  successfulArtifacts : Nat
  failedArtifactIds : List String
  totalErrors : Nat
  exitCode : Nat
deriving Repr

/-- `migrateCloudinaryToSupabase` in execute mode over an already-selected
working set, summary and exit code included. -/
def migrateCloudinaryToSupabase (fetch : Except String (List CloudArtifact))
    (limit : Option Nat) (outcome : String → MigOutcome) : BatchOutput :=
  match fetch with
  | Except.error _ =>
    { results := [], successfulArtifacts := 0, failedArtifactIds := []
      totalErrors := 0, exitCode := 1 }
  | Except.ok db =>
    let results := (selectArtifacts db limit).map (migrateArtifact outcome)
    { results := results
      successfulArtifacts := (results.filter (fun r => r.errors.isEmpty)).length
      failedArtifactIds :=
        (results.filter (fun r => !r.errors.isEmpty)).map (fun r => r.artifactId)
      totalErrors := (results.map (fun r => r.errors.length)).sum
      exitCode := 0 }

/-! ## Association-list lemmas shared by the rewrite proofs -/

theorem mapGet_jsAssign (m : List (String × String)) (k v k' : String) :
    mapGet (jsAssign m k v) k' = if k' = k then some v else mapGet m k' := by
  induction m with
  | nil =>
    simp only [jsAssign, mapGet]
    by_cases h : k' = k
    · simp [h]
    · simp [h, Ne.symm h]
  | cons p rest ih =>
    simp only [jsAssign]
    by_cases hp : p.1 = k
    · subst hp
      simp only [if_pos rfl, mapGet]
      by_cases h : k' = p.1
      · simp [h]
      · simp [h, Ne.symm h]
    · simp only [if_neg hp, mapGet, ih]
      by_cases h : p.1 = k'
      · have hne : ¬ k' = k := fun hh => hp (h.trans hh)
        simp [h, hne]
      · simp [h]

theorem mapGet_some_mem {m : List (String × String)} {k v : String}
    (h : mapGet m k = some v) : (k, v) ∈ m := by
  induction m with
  | nil => simp [mapGet] at h
  | cons p rest ih =>
    simp only [mapGet] at h
    split at h
    · rename_i hp
      cases h
      have hpk : p = (k, p.2) := by rw [← hp]
      rw [← hpk]
      exact List.mem_cons_self p rest
    · exact List.mem_cons_of_mem _ (ih h)

theorem mem_mapGet_isSome {m : List (String × String)} {p : String × String}
    (h : p ∈ m) : (mapGet m p.1).isSome := by
  induction m with
  | nil => simp at h
  | cons q rest ih =>
    rcases List.mem_cons.mp h with h | h
    · subst h; simp [mapGet]
    · simp only [mapGet]
      split
      · simp
      · exact ih h

theorem mapGet_append (l₁ l₂ : List (String × String)) (k : String) :
    mapGet (l₁ ++ l₂) k =
      (match mapGet l₁ k with
       | some v => some v
       | none => mapGet l₂ k) := by
  induction l₁ with
  | nil => simp [mapGet]
  | cons p rest ih =>
    simp only [List.cons_append, mapGet]
    split
    · rfl
    · exact ih

theorem jsAssign_of_not_mem (m : List (String × String)) (k v : String)
    (h : mapGet m k = none) : jsAssign m k v = m ++ [(k, v)] := by
  induction m with
  | nil => simp [jsAssign]
  | cons p rest ih =>
    simp only [mapGet] at h
    split at h
    · exact absurd h (by simp)
    · rename_i hp
      simp [jsAssign, hp, ih h]

theorem getOrFalsy_of_none {m : List (String × String)} {u : String}
    (h : mapGet m u = none) : getOrFalsy m u = u := by
  simp [getOrFalsy, h]

theorem getOrFalsy_of_some {m : List (String × String)} {u v : String}
    (h : mapGet m u = some v) (hv : v ≠ "") : getOrFalsy m u = v := by
  simp [getOrFalsy, h, hv]

theorem getOrFalsy_idem {m : List (String × String)}
    (hdisj : ∀ p ∈ m, mapGet m p.2 = none) (x : String) :
    getOrFalsy m (getOrFalsy m x) = getOrFalsy m x := by
  rcases hv : mapGet m x with _ | v
  · rw [getOrFalsy_of_none hv, getOrFalsy_of_none hv]
  · by_cases hvv : v = ""
    · subst hvv
      simp [getOrFalsy, hv]
    · rw [getOrFalsy_of_some hv hvv]
      exact getOrFalsy_of_none (hdisj (x, v) (mapGet_some_mem hv))

/-! ## Lemmas about `rewriteJsObject` -/

theorem rewriteFold_preserves (m : List (String × String))
    (obj : List (String × String)) :
    ∀ acc a, (mapGet acc a).isSome →
      (mapGet (obj.foldl (fun acc p => jsAssign acc (getOrFalsy m p.1) p.2) acc) a).isSome := by
  induction obj with
  | nil => intro acc a h; exact h
  | cons p rest ih =>
    intro acc a h
    simp only [List.foldl_cons]
    apply ih
    rw [mapGet_jsAssign]
    split
    · simp
    · exact h

theorem rewriteFold_image (m : List (String × String))
    (obj : List (String × String)) :
    ∀ acc u, (mapGet obj u).isSome →
      (mapGet (obj.foldl (fun acc p => jsAssign acc (getOrFalsy m p.1) p.2) acc)
        (getOrFalsy m u)).isSome := by
  induction obj with
  | nil => intro acc u h; simp [mapGet] at h
  | cons p rest ih =>
    intro acc u h
    simp only [List.foldl_cons]
    by_cases hp : p.1 = u
    · subst hp
      apply rewriteFold_preserves
      rw [mapGet_jsAssign]
      simp
    · apply ih
      simp only [mapGet, if_neg hp] at h
      exact h

theorem rewriteFold_shape (m : List (String × String))
    (obj : List (String × String)) :
    ∀ acc a,
      (mapGet (obj.foldl (fun acc p => jsAssign acc (getOrFalsy m p.1) p.2) acc) a).isSome →
      (mapGet acc a).isSome ∨ ∃ u, (mapGet obj u).isSome ∧ getOrFalsy m u = a := by
  induction obj with
  | nil => intro acc a h; exact Or.inl h
  | cons p rest ih =>
    intro acc a h
    simp only [List.foldl_cons] at h
    rcases ih _ a h with h' | ⟨u, hu, hfu⟩
    · rw [mapGet_jsAssign] at h'
      split at h'
      · rename_i ha
        right
        refine ⟨p.1, ?_, ha.symm⟩
        simp [mapGet]
      · exact Or.inl h'
    · right
      refine ⟨u, ?_, hfu⟩
      simp only [mapGet]
      split
      · simp
      · exact hu

theorem jsAssign_keys_of_mem (m : List (String × String)) (k v : String)
    (h : (mapGet m k).isSome) : (jsAssign m k v).map Prod.fst = m.map Prod.fst := by
  induction m with
  | nil => simp [mapGet] at h
  | cons p rest ih =>
    simp only [jsAssign]
    split
    · rename_i hp
      simp [hp]
    · rename_i hp
      simp only [List.map_cons]
      simp only [mapGet, if_neg hp] at h
      rw [ih h]

theorem jsAssign_keys_nodup {m : List (String × String)} {k v : String}
    (h : (m.map Prod.fst).Nodup) : ((jsAssign m k v).map Prod.fst).Nodup := by
  rcases hk : mapGet m k with _ | v'
  · rw [jsAssign_of_not_mem m k v hk]
    rw [List.map_append]
    simp only [List.map_cons, List.map_nil]
    rw [List.nodup_append]
    refine ⟨h, List.nodup_singleton k, ?_⟩
    intro a ha hb
    simp only [List.mem_singleton] at hb
    subst hb
    rcases List.mem_map.mp ha with ⟨p, hp, hfst⟩
    have := mem_mapGet_isSome hp
    rw [hfst, hk] at this
    simp at this
  · rw [jsAssign_keys_of_mem m k v (by simp [hk])]
    exact h

theorem rewriteFold_nodup (m : List (String × String))
    (obj : List (String × String)) :
    ∀ acc, ((acc.map Prod.fst).Nodup) →
      (((obj.foldl (fun acc p => jsAssign acc (getOrFalsy m p.1) p.2) acc).map Prod.fst).Nodup) := by
  induction obj with
  | nil => intro acc h; exact h
  | cons p rest ih =>
    intro acc h
    simp only [List.foldl_cons]
    exact ih _ (jsAssign_keys_nodup h)

theorem rewriteFold_fixed (m : List (String × String))
    (obj : List (String × String)) :
    ∀ acc, (∀ q ∈ obj, getOrFalsy m q.1 = q.1) →
      (∀ q ∈ obj, mapGet acc q.1 = none) →
      ((obj.map Prod.fst).Nodup) →
      obj.foldl (fun acc p => jsAssign acc (getOrFalsy m p.1) p.2) acc = acc ++ obj := by
  induction obj with
  | nil => intro acc _ _ _; simp
  | cons p rest ih =>
    intro acc hfix hdis hnd
    simp only [List.foldl_cons]
    rw [hfix p (List.mem_cons_self p rest)]
    rw [jsAssign_of_not_mem acc p.1 p.2 (hdis p (List.mem_cons_self p rest))]
    have hrest := ih (acc ++ [(p.1, p.2)])
      (fun q hq => hfix q (List.mem_cons_of_mem p hq))
      (fun q hq => by
        rw [mapGet_append]
        rw [hdis q (List.mem_cons_of_mem p hq)]
        simp only [mapGet]
        have : ¬ p.1 = q.1 := by
          intro hpq
          rw [List.map_cons, List.nodup_cons] at hnd
          exact hnd.1 (hpq ▸ List.mem_map.mpr ⟨q, hq, rfl⟩)
        simp [this]
        )
      (by rw [List.map_cons, List.nodup_cons] at hnd; exact hnd.2)
    rw [hrest]
    simp

theorem rewriteJsObject_keys_fixed (m : List (String × String))
    (hf : ∀ x, getOrFalsy m (getOrFalsy m x) = getOrFalsy m x)
    (obj : List (String × String)) :
    ∀ q ∈ rewriteJsObject m obj, getOrFalsy m q.1 = q.1 := by
  intro q hq
  have hks := mem_mapGet_isSome hq
  rcases rewriteFold_shape m obj [] q.1 hks with h | ⟨u, _, hfu⟩
  · simp [mapGet] at h
  · rw [← hfu, hf]

theorem rewriteJsObject_idem (m : List (String × String))
    (hf : ∀ x, getOrFalsy m (getOrFalsy m x) = getOrFalsy m x)
    (obj : List (String × String)) :
    rewriteJsObject m (rewriteJsObject m obj) = rewriteJsObject m obj := by
  have hnd : ((rewriteJsObject m obj).map Prod.fst).Nodup :=
    rewriteFold_nodup m obj [] (by simp)
  have hfix := rewriteJsObject_keys_fixed m hf obj
  have := rewriteFold_fixed m (rewriteJsObject m obj) []
    hfix (fun q _ => by simp [mapGet]) hnd
  simpa [rewriteJsObject] using this

/-! ## C3: the rewrite is a no-op on URLs absent from the mapping -/

/-- C3: for any reference graph `G`, any URL mapping `M`, and any URL `u`
that is not a key of `M`, `rewrite(G, M)` leaves every occurrence of `u` in
`G` unchanged: every media-block position holding `u` still holds `u`, a
thumbnail equal to `u` is untouched, and `u` stays a key of each JSON
metadata map it was a key of. -/
theorem rewrite_leaves_unmapped (g : RefGraph) (m : List (String × String))
    (u : String) (h : mapGet m u = none) :
    (∀ i, g.media_urls.get? i = some u → (rewriteGraph g m).media_urls.get? i = some u)
    ∧ (g.thumbnail_url = some u → (rewriteGraph g m).thumbnail_url = some u)
    ∧ ((mapGet g.image_captions u).isSome →
        (mapGet (rewriteGraph g m).image_captions u).isSome)
    ∧ ((mapGet g.video_summaries u).isSome →
        (mapGet (rewriteGraph g m).video_summaries u).isSome)
    ∧ ((mapGet g.audio_transcripts u).isSome →
        (mapGet (rewriteGraph g m).audio_transcripts u).isSome) := by
  have hfix : getOrFalsy m u = u := getOrFalsy_of_none h
  refine ⟨?_, ?_, ?_, ?_, ?_⟩
  · intro i hi
    show (g.media_urls.map (getOrFalsy m)).get? i = some u
    rw [List.get?_map, hi]
    simp [hfix]
  · intro ht
    show thumbRewrite m g.thumbnail_url = some u
    rw [ht]
    by_cases hu : u = ""
    · simp [thumbRewrite, hu]
    · simp [thumbRewrite, hu, h]
  · intro hc
    have := rewriteFold_image m g.image_captions [] u hc
    rwa [hfix] at this
  · intro hc
    have := rewriteFold_image m g.video_summaries [] u hc
    rwa [hfix] at this
  · intro hc
    have := rewriteFold_image m g.audio_transcripts [] u hc
    rwa [hfix] at this

/-- Concrete instance for C3: mapping `{a ↦ b}`, URL `x` untouched in all
reference locations. -/
theorem rewrite_leaves_unmapped_witness :
    (rewriteGraph
      { media_urls := ["x", "a"], thumbnail_url := some "x"
        image_captions := [("x", "cap")], video_summaries := []
        audio_transcripts := [] } [("a", "b")]).media_urls.get? 0 = some "x"
    ∧ (rewriteGraph
      { media_urls := ["x", "a"], thumbnail_url := some "x"
        image_captions := [("x", "cap")], video_summaries := []
        audio_transcripts := [] } [("a", "b")]).thumbnail_url = some "x"
    ∧ (mapGet (rewriteGraph
      { media_urls := ["x", "a"], thumbnail_url := some "x"
        image_captions := [("x", "cap")], video_summaries := []
        audio_transcripts := [] } [("a", "b")]).image_captions "x").isSome := by
  have h := rewrite_leaves_unmapped
    { media_urls := ["x", "a"], thumbnail_url := some "x"
      image_captions := [("x", "cap")], video_summaries := []
      audio_transcripts := [] } [("a", "b")] "x" (by decide)
  exact ⟨h.1 0 (by decide), h.2.1 (by decide), h.2.2.1 (by decide)⟩

/-! ## C4: idempotence of the rewrite -/

/-- C4 fails as stated: with the mapping `{a ↦ b, b ↦ c}` the first rewrite
sends the media entry `a` to `b` and the second sends it on to `c`, so
applying the rewrite twice differs from applying it once. -/
theorem rewrite_not_idempotent :
    rewriteGraph
      (rewriteGraph
        { media_urls := ["a"], thumbnail_url := none, image_captions := []
          video_summaries := [], audio_transcripts := [] }
        [("a", "b"), ("b", "c")])
      [("a", "b"), ("b", "c")] ≠
    rewriteGraph
      { media_urls := ["a"], thumbnail_url := none, image_captions := []
        video_summaries := [], audio_transcripts := [] }
      [("a", "b"), ("b", "c")] := by
  decide

/-- C4 amended: the rewrite is idempotent for every mapping none of whose
values is itself a key (which holds for the mover-produced mappings, whose
keys are temp URLs and whose values are canonical URLs):
`rewrite(rewrite(G, M), M) = rewrite(G, M)`. -/
theorem rewrite_idempotent (g : RefGraph) (m : List (String × String))
    (hdisj : ∀ p ∈ m, mapGet m p.2 = none) :
    rewriteGraph (rewriteGraph g m) m = rewriteGraph g m := by
  have hf : ∀ x, getOrFalsy m (getOrFalsy m x) = getOrFalsy m x :=
    getOrFalsy_idem hdisj
  show RefGraph.mk _ _ _ _ _ = RefGraph.mk _ _ _ _ _
  congr 1
  · show (g.media_urls.map (getOrFalsy m)).map (getOrFalsy m) = _
    rw [List.map_map]
    exact List.map_congr_left (fun x _ => hf x)
  · show thumbRewrite m (thumbRewrite m g.thumbnail_url) = thumbRewrite m g.thumbnail_url
    rcases ht : g.thumbnail_url with _ | t
    · rfl
    · by_cases h0 : t = ""
      · simp [thumbRewrite, h0]
      · rcases hv : mapGet m t with _ | v
        · simp [thumbRewrite, h0, hv]
        · by_cases hv0 : v = ""
          · simp [thumbRewrite, h0, hv, hv0]
          · have hvn : mapGet m v = none := hdisj (t, v) (mapGet_some_mem hv)
            simp [thumbRewrite, h0, hv, hv0, hvn]
  · exact rewriteJsObject_idem m hf g.image_captions
  · exact rewriteJsObject_idem m hf g.video_summaries
  · exact rewriteJsObject_idem m hf g.audio_transcripts

/-- Concrete instance for C4 amended: a disjoint mapping on a populated
graph, applied twice. -/
theorem rewrite_idempotent_witness :
    rewriteGraph
      (rewriteGraph
        { media_urls := ["a", "x"], thumbnail_url := some "a"
          image_captions := [("a", "cap")], video_summaries := []
          audio_transcripts := [] }
        [("a", "b")])
      [("a", "b")] =
    rewriteGraph
      { media_urls := ["a", "x"], thumbnail_url := some "a"
        image_captions := [("a", "cap")], video_summaries := []
        audio_transcripts := [] }
      [("a", "b")] :=
  rewrite_idempotent
    { media_urls := ["a", "x"], thumbnail_url := some "a"
      image_captions := [("a", "cap")], video_summaries := []
      audio_transcripts := [] }
    [("a", "b")] (by decide)

/-! ## C2: classifier totality -/

/-- C2 fails as stated: `getFileExtension` (one of the cited classifier
functions) begins with `new URL(url)`, and the URL constructor throws a
`TypeError` on the empty string, so the claim's "for every input string
(including empty strings)" quantification is refuted at `""`. -/
theorem getFileExtension_raises_on_empty :
    getFileExtension "" = Except.error "Invalid URL" := rfl

/-- C2 amended: for every input string — empty and malformed strings
included — the SQL classifier functions (kind detection, MIME-type
inference, filename extraction) return a result without raising (being pure
functions of the URL string they are in particular deterministic), and kind
detection defaults to `image` when no known extension matches; the migration
script's `getFileExtension` however returns a result without raising only
when its input parses as a URL, since it begins with `new URL(url)`. -/
theorem classifier_total (url : String) :
    (detect_media_type url = "image" ∨ detect_media_type url = "video" ∨
        detect_media_type url = "audio")
    ∧ (extMatch url ["jpg", "jpeg", "png", "gif", "webp", "heic", "heif"] = false →
        extMatch url ["mp4", "mov", "avi", "mkv", "m4v", "flv", "wmv", "webm"] = false →
        extMatch url ["mp3", "wav", "m4a", "aac", "ogg", "opus"] = false →
        detect_media_type url = "image")
    ∧ extract_filename_from_url url ≠ ""
    ∧ detect_mime_type url ≠ ""
    ∧ ((urlPathname url).isSome = true → ∃ e, getFileExtension url = Except.ok e) := by
  refine ⟨?_, ?_, ?_, ?_, ?_⟩
  · simp only [detect_media_type]
    split
    · exact Or.inl rfl
    · split
      · exact Or.inr (Or.inl rfl)
      · split
        · exact Or.inr (Or.inr rfl)
        · exact Or.inl rfl
  · intro h1 h2 h3
    simp [detect_media_type, h1, h2, h3]
  · simp only [extract_filename_from_url]
    split
    · decide
    · split
      · decide
      · rename_i p _ hne
        intro hcontra
        have : p.1.reverse = [] := congrArg String.data hcontra
        rw [List.reverse_eq_nil_iff] at this
        simp [this] at hne
  · simp only [detect_mime_type]
    split
    · split_ifs <;> simp
    · split_ifs <;> simp
    · split_ifs <;> simp
    · simp
  · intro h
    obtain ⟨p, hp⟩ := Option.isSome_iff_exists.mp h
    simp only [getFileExtension, hp]
    split
    · exact ⟨_, rfl⟩
    · split
      · exact ⟨_, rfl⟩
      · exact ⟨_, rfl⟩

/-- Concrete instance for C2 amended: the SQL classifiers applied to the
empty string — a malformed URL — still return results (with the `image`
default), while `getFileExtension` succeeds on a well-formed URL. -/
theorem classifier_total_witness :
    (detect_media_type "" = "image" ∨ detect_media_type "" = "video" ∨
        detect_media_type "" = "audio")
    ∧ extract_filename_from_url "" ≠ ""
    ∧ detect_mime_type "" ≠ ""
    ∧ (∃ e, getFileExtension "https://example.com/photos/pic.jpg" = Except.ok e) := by
  have h1 := classifier_total ""
  have h2 := classifier_total "https://example.com/photos/pic.jpg"
  exact ⟨h1.1, h1.2.2.1, h1.2.2.2.1, h2.2.2.2.2 (by decide)⟩

/-! ## C5: relocation is idempotent -/

/-- Idempotence of the copy-then-delete step: after a successful run the
destination exists, so a re-run hits the "already exists" branch and resolves
to the same public URL with no state change. -/
theorem moveCopyStep_idem (supa : String) (st : List String)
    (cp uid aid : String) (st₁ : List String) (u : String)
    (h : moveCopyStep supa st cp uid aid = (st₁, some u)) :
    moveCopyStep supa st₁ cp uid aid = (st₁, some u) := by
  by_cases hdst : st.contains (destPath uid aid cp) = true
  · rw [moveCopyStep, if_pos hdst] at h
    injection h with h1 h2
    subst h1
    rw [moveCopyStep, if_pos hdst, h2]
  · rw [moveCopyStep, if_neg hdst] at h
    by_cases hsrc : st.contains cp = true
    · rw [if_pos hsrc] at h
      injection h with h1 h2
      subst h1
      have hne : destPath uid aid cp ≠ cp := by
        intro hh
        rw [hh] at hdst
        exact hdst hsrc
      have hmem : destPath uid aid cp ∈ (st ++ [destPath uid aid cp]).erase cp := by
        rw [List.mem_erase_of_ne hne]
        simp
      have hcont : ((st ++ [destPath uid aid cp]).erase cp).contains
          (destPath uid aid cp) = true := List.elem_iff.mpr hmem
      rw [moveCopyStep, if_pos hcont, h2]
    · rw [if_neg hsrc] at h
      injection h with h1 h2
      cases h2

/-- C5: relocating the same source URL to the same destination twice yields
the same final destination URL both times and the second call reports no
error — after a successful first move the destination exists, the copy fails
with "already exists", and the script treats that as success and resolves to
the existing destination's public URL. -/
theorem relocate_idempotent (supa : String) (st : List String)
    (url uid aid : String) (st₁ : List String) (u : String)
    (h : moveTempFile supa st url uid aid = (st₁, some u)) :
    moveTempFile supa st₁ url uid aid = (st₁, some u) := by
  rcases hp : extractPathFromUrl url with _ | currentPath
  · rw [moveTempFile, hp] at h
    injection h with h1 h2
    cases h2
  · rw [moveTempFile, hp] at h
    rw [moveTempFile, hp]
    exact moveCopyStep_idem supa st currentPath uid aid st₁ u h

/-- Concrete instance for C5: a temp blob moved once, then the move re-run
on the resulting storage state. -/
theorem relocate_idempotent_witness :
    moveTempFile "https://p.supabase.co" ["u1/art1/a.jpg"]
      "https://p.supabase.co/storage/v1/object/public/heirlooms-media/temp/u/a.jpg"
      "u1" "art1" =
    (["u1/art1/a.jpg"],
      some "https://p.supabase.co/storage/v1/object/public/heirlooms-media/u1/art1/a.jpg") :=
  relocate_idempotent "https://p.supabase.co" ["temp/u/a.jpg"]
    "https://p.supabase.co/storage/v1/object/public/heirlooms-media/temp/u/a.jpg"
    "u1" "art1" ["u1/art1/a.jpg"]
    "https://p.supabase.co/storage/v1/object/public/heirlooms-media/u1/art1/a.jpg"
    (by decide)

/-! ## C7: the derivative backfill never overwrites an existing triple -/

theorem derivGet_derivAssign (m : List (String × Deriv)) (k : String) (v : Deriv)
    (k' : String) :
    derivGet (derivAssign m k v) k' = if k' = k then some v else derivGet m k' := by
  induction m with
  | nil =>
    simp only [derivAssign, derivGet]
    by_cases h : k' = k
    · simp [h]
    · simp [h, Ne.symm h]
  | cons p rest ih =>
    simp only [derivAssign]
    by_cases hp : p.1 = k
    · subst hp
      simp only [if_pos rfl, derivGet]
      by_cases h : k' = p.1
      · simp [h]
      · simp [h, Ne.symm h]
    · simp only [if_neg hp, derivGet, ih]
      by_cases h : p.1 = k'
      · have hne : ¬ k' = k := fun hh => hp (h.trans hh)
        simp [h, hne]
      · simp [h]

theorem backfillFold_preserves (urls : List String) :
    ∀ (nd : List (String × Deriv)) (k : String) (d : Deriv),
      derivGet nd k = some d →
      derivGet
        (urls.foldl
          (fun nd url =>
            if (derivGet nd url).isSome then nd
            else match generateDerivatives url with
              | some dv => derivAssign nd url dv
              | none => nd)
          nd) k = some d := by
  induction urls with
  | nil => intro nd k d h; exact h
  | cons u rest ih =>
    intro nd k d h
    simp only [List.foldl_cons]
    apply ih
    by_cases hu : (derivGet nd u).isSome
    · simp only [hu, if_true]
      exact h
    · simp only [hu, Bool.false_eq_true, if_false]
      rcases generateDerivatives u with _ | dv
      · exact h
      · rw [derivGet_derivAssign]
        have hk : ¬ k = u := by
          intro hh
          rw [← hh, h] at hu
          simp at hu
        rw [if_neg hk]
        exact h

theorem backfillFold_only_adds (urls : List String) :
    ∀ (nd : List (String × Deriv)) (k : String),
      derivGet nd k = none →
      (derivGet
        (urls.foldl
          (fun nd url =>
            if (derivGet nd url).isSome then nd
            else match generateDerivatives url with
              | some dv => derivAssign nd url dv
              | none => nd)
          nd) k).isSome = true →
      k ∈ urls := by
  induction urls with
  | nil =>
    intro nd k h hs
    simp only [List.foldl_nil] at hs
    rw [h] at hs
    simp at hs
  | cons u rest ih =>
    intro nd k h hs
    by_cases hk : k = u
    · exact hk ▸ List.mem_cons_self u rest
    · simp only [List.foldl_cons] at hs
      refine List.mem_cons_of_mem u (ih _ k ?_ hs)
      by_cases hu : (derivGet nd u).isSome
      · simpa [hu] using h
      · simp only [hu, Bool.false_eq_true, if_false]
        rcases generateDerivatives u with _ | dv
        · exact h
        · rw [derivGet_derivAssign, if_neg hk]
          exact h

/-- C7: for every artifact and URL that already has a stored derivative
triple, the backfill leaves that entry byte-identical; and the job only adds
triples for Cloudinary (legacy-backend) URLs appearing in the artifact's
media list. -/
theorem backfill_never_overwrites (a : BackfillArtifact) :
    (∀ url d, derivGet a.media_derivatives url = some d →
        derivGet (backfillArtifact a) url = some d)
    ∧ (∀ url, derivGet a.media_derivatives url = none →
        (derivGet (backfillArtifact a) url).isSome = true →
        isCloudinaryUrl url = true ∧ url ∈ a.media_urls) := by
  constructor
  · intro url d h
    exact backfillFold_preserves (a.media_urls.filter isCloudinaryUrl)
      a.media_derivatives url d h
  · intro url h hs
    have hmem := backfillFold_only_adds (a.media_urls.filter isCloudinaryUrl)
      a.media_derivatives url h hs
    have := List.mem_filter.mp hmem
    exact ⟨this.2, this.1⟩

/-- Concrete instance for C7: `url1` keeps its stored triple byte-identical
and the triple added for `url2` is for a Cloudinary URL of the artifact. -/
theorem backfill_never_overwrites_witness :
    derivGet
      (backfillArtifact
        { id := "a1"
          media_urls := ["https://res.cloudinary.com/d/image/upload/v1/url1.jpg",
            "https://res.cloudinary.com/d/image/upload/v1/url2.jpg"]
          media_derivatives :=
            [("https://res.cloudinary.com/d/image/upload/v1/url1.jpg",
              { thumb := "X", medium := "Y", large := "Z" })] })
      "https://res.cloudinary.com/d/image/upload/v1/url1.jpg" =
      some { thumb := "X", medium := "Y", large := "Z" }
    ∧ (isCloudinaryUrl "https://res.cloudinary.com/d/image/upload/v1/url2.jpg" = true
        ∧ "https://res.cloudinary.com/d/image/upload/v1/url2.jpg" ∈
          ["https://res.cloudinary.com/d/image/upload/v1/url1.jpg",
            "https://res.cloudinary.com/d/image/upload/v1/url2.jpg"]) := by
  have h := backfill_never_overwrites
    { id := "a1"
      media_urls := ["https://res.cloudinary.com/d/image/upload/v1/url1.jpg",
        "https://res.cloudinary.com/d/image/upload/v1/url2.jpg"]
      media_derivatives :=
        [("https://res.cloudinary.com/d/image/upload/v1/url1.jpg",
          { thumb := "X", medium := "Y", large := "Z" })] }
  exact ⟨h.1 "https://res.cloudinary.com/d/image/upload/v1/url1.jpg"
      { thumb := "X", medium := "Y", large := "Z" } (by decide),
    h.2 "https://res.cloudinary.com/d/image/upload/v1/url2.jpg" (by decide) (by decide)⟩

/-! ## C6: the orphan scan without the destructive flag mutates nothing -/

/-- C6: invoked without `--delete` (`shouldDelete = false`, so
`isDryRun = !shouldDelete || dryRunFlag = true` whatever the `--dry-run`
flag), the cleanup script's `main` leaves the whole database state — the
`user_media`, `artifact_media` and `artifacts` tables and the blob store —
unchanged, regardless of how many orphans the two sub-scans find. -/
theorem cleanup_dry_run_no_side_effects (dryRunFlag : Bool) (db : CleanupDB) :
    cleanupMain false dryRunFlag db = db := by
  unfold cleanupMain
  simp only [Bool.not_false, Bool.true_or]
  split
  · rfl
  · rfl

/-! ## C8: per-artifact failure isolation in the bulk migration -/

theorem migrateFold_id (outcome : String → MigOutcome) (urls : List String) :
    ∀ res : MigrationResult,
      (urls.foldl
        (fun res oldUrl =>
          match outcome oldUrl with
          | MigOutcome.downloadFail =>
            { res with errors := res.errors ++ ["Failed to download: " ++ oldUrl] }
          | MigOutcome.uploadFail =>
            { res with errors := res.errors ++ ["Failed to upload: " ++ oldUrl] }
          | MigOutcome.ok newUrl =>
            { res with
              urlMappings := mapSet res.urlMappings oldUrl newUrl
              migratedUrls := res.migratedUrls + 1 })
        res).artifactId = res.artifactId := by
  induction urls with
  | nil => intro res; rfl
  | cons u rest ih =>
    intro res
    simp only [List.foldl_cons]
    rcases outcome u with _ | _ | n <;> exact ih _

theorem migrateFold_errors_mono (outcome : String → MigOutcome) (urls : List String) :
    ∀ (res : MigrationResult) (e : String), e ∈ res.errors →
      e ∈ (urls.foldl
        (fun res oldUrl =>
          match outcome oldUrl with
          | MigOutcome.downloadFail =>
            { res with errors := res.errors ++ ["Failed to download: " ++ oldUrl] }
          | MigOutcome.uploadFail =>
            { res with errors := res.errors ++ ["Failed to upload: " ++ oldUrl] }
          | MigOutcome.ok newUrl =>
            { res with
              urlMappings := mapSet res.urlMappings oldUrl newUrl
              migratedUrls := res.migratedUrls + 1 })
        res).errors := by
  induction urls with
  | nil => intro res e h; exact h
  | cons u rest ih =>
    intro res e h
    simp only [List.foldl_cons]
    rcases outcome u with _ | _ | n
    · exact ih _ e (List.mem_append_left _ h)
    · exact ih _ e (List.mem_append_left _ h)
    · exact ih _ e h

theorem migrateArtifact_id (outcome : String → MigOutcome) (a : CloudArtifact) :
    (migrateArtifact outcome a).artifactId = a.id :=
  migrateFold_id outcome (cloudUrlsOf a) _

theorem migrateFold_records_failure (outcome : String → MigOutcome)
    (u : String) (hfail : outcome u = MigOutcome.downloadFail)
    (urls : List String) :
    ∀ res : MigrationResult, u ∈ urls →
      ("Failed to download: " ++ u) ∈
        (urls.foldl
          (fun res oldUrl =>
            match outcome oldUrl with
            | MigOutcome.downloadFail =>
              { res with errors := res.errors ++ ["Failed to download: " ++ oldUrl] }
            | MigOutcome.uploadFail =>
              { res with errors := res.errors ++ ["Failed to upload: " ++ oldUrl] }
            | MigOutcome.ok newUrl =>
              { res with
                urlMappings := mapSet res.urlMappings oldUrl newUrl
                migratedUrls := res.migratedUrls + 1 })
          res).errors := by
  induction urls with
  | nil => intro res hu; simp at hu
  | cons u' rest ih =>
    intro res hu
    simp only [List.foldl_cons]
    rcases List.mem_cons.mp hu with heq | hmem
    · subst heq
      rw [hfail]
      exact migrateFold_errors_mono outcome rest _ _ (by simp)
    · rcases outcome u' with _ | _ | n <;> exact ih _ hmem

theorem migrateArtifact_records_failure (outcome : String → MigOutcome)
    (a : CloudArtifact) (u : String) (hu : u ∈ cloudUrlsOf a)
    (hfail : outcome u = MigOutcome.downloadFail) :
    ("Failed to download: " ++ u) ∈ (migrateArtifact outcome a).errors :=
  migrateFold_records_failure outcome u hfail (cloudUrlsOf a) _ hu

/-- C8: with the database reachable (`fetch` succeeds), the batch run
produces one result per selected artifact in order (so one artifact's errors
never prevent the others from being processed), each result carries its own
artifact's id and is exactly `migrateArtifact` of that artifact (so a URL
whose download fails is recorded in that artifact's own error list), the
summary separates fully-successful artifacts from partially-failed ones, and
the run exits with code 0 even when per-item errors occurred. -/
theorem migration_failure_isolation (artifacts : List CloudArtifact)
    (limit : Option Nat) (outcome : String → MigOutcome) :
    (migrateCloudinaryToSupabase (Except.ok artifacts) limit outcome).exitCode = 0
    ∧ List.Forall₂
        (fun a r => r = migrateArtifact outcome a ∧ r.artifactId = a.id)
        (selectArtifacts artifacts limit)
        (migrateCloudinaryToSupabase (Except.ok artifacts) limit outcome).results
    ∧ (∀ a ∈ selectArtifacts artifacts limit, ∀ u ∈ cloudUrlsOf a,
        outcome u = MigOutcome.downloadFail →
        ("Failed to download: " ++ u) ∈ (migrateArtifact outcome a).errors)
    ∧ (migrateCloudinaryToSupabase (Except.ok artifacts) limit outcome).successfulArtifacts
        = ((migrateCloudinaryToSupabase (Except.ok artifacts) limit outcome).results.filter
            (fun r => r.errors.isEmpty)).length
    ∧ (migrateCloudinaryToSupabase (Except.ok artifacts) limit outcome).failedArtifactIds
        = ((migrateCloudinaryToSupabase (Except.ok artifacts) limit outcome).results.filter
            (fun r => !r.errors.isEmpty)).map (fun r => r.artifactId) := by
  refine ⟨rfl, ?_, ?_, rfl, rfl⟩
  · show List.Forall₂ _ (selectArtifacts artifacts limit)
      ((selectArtifacts artifacts limit).map (migrateArtifact outcome))
    induction selectArtifacts artifacts limit with
    | nil => exact List.Forall₂.nil
    | cons a rest ih =>
      exact List.Forall₂.cons ⟨rfl, migrateArtifact_id outcome a⟩ ih
  · intro a _ u hu hfail
    exact migrateArtifact_records_failure outcome a u hu hfail

/-- Concrete instance for C8: a two-artifact batch where the second
artifact's only URL fails to download; the batch exits 0, both artifacts are
processed, and the failure is recorded in the second artifact's own result. -/
theorem migration_failure_isolation_witness :
    (migrateCloudinaryToSupabase
      (Except.ok
        [{ id := "a1", user_id := "u", title := "one"
           graph := { media_urls := ["https://res.cloudinary.com/d/image/upload/v1/x.jpg"]
                      thumbnail_url := none, image_captions := []
                      video_summaries := [], audio_transcripts := [] } },
         { id := "a2", user_id := "u", title := "two"
           graph := { media_urls := ["https://res.cloudinary.com/d/image/upload/v1/y.jpg"]
                      thumbnail_url := none, image_captions := []
                      video_summaries := [], audio_transcripts := [] } }])
      none
      (fun u => if u = "https://res.cloudinary.com/d/image/upload/v1/y.jpg" then
        MigOutcome.downloadFail else MigOutcome.ok "https://s.supabase.co/new")).exitCode = 0
    ∧ ("Failed to download: https://res.cloudinary.com/d/image/upload/v1/y.jpg") ∈
        (migrateArtifact
          (fun u => if u = "https://res.cloudinary.com/d/image/upload/v1/y.jpg" then
            MigOutcome.downloadFail else MigOutcome.ok "https://s.supabase.co/new")
          { id := "a2", user_id := "u", title := "two"
            graph := { media_urls := ["https://res.cloudinary.com/d/image/upload/v1/y.jpg"]
                       thumbnail_url := none, image_captions := []
                       video_summaries := [], audio_transcripts := [] } }).errors := by
  have h := migration_failure_isolation
    [{ id := "a1", user_id := "u", title := "one"
       graph := { media_urls := ["https://res.cloudinary.com/d/image/upload/v1/x.jpg"]
                  thumbnail_url := none, image_captions := []
                  video_summaries := [], audio_transcripts := [] } },
     { id := "a2", user_id := "u", title := "two"
       graph := { media_urls := ["https://res.cloudinary.com/d/image/upload/v1/y.jpg"]
                  thumbnail_url := none, image_captions := []
                  video_summaries := [], audio_transcripts := [] } }]
    none
    (fun u => if u = "https://res.cloudinary.com/d/image/upload/v1/y.jpg" then
      MigOutcome.downloadFail else MigOutcome.ok "https://s.supabase.co/new")
  refine ⟨h.1, h.2.2.1 _ (by decide) _ (by decide) (by decide)⟩

/-! ## C9: `--limit=N` caps the working set -/

/-- A three-artifact dataset, all eligible (Cloudinary media), for the limit
scenario. -/
def limitScenarioDb : List CloudArtifact :=
  [{ id := "a1", user_id := "u", title := "one"
     graph := { media_urls := ["https://res.cloudinary.com/d/image/upload/v1/x1.jpg"]
                thumbnail_url := none, image_captions := []
                video_summaries := [], audio_transcripts := [] } },
   { id := "a2", user_id := "u", title := "two"
     graph := { media_urls := ["https://res.cloudinary.com/d/image/upload/v1/x2.jpg"]
                thumbnail_url := none, image_captions := []
                video_summaries := [], audio_transcripts := [] } },
   { id := "a3", user_id := "u", title := "three"
     graph := { media_urls := ["https://res.cloudinary.com/d/image/upload/v1/x3.jpg"]
                thumbnail_url := none, image_captions := []
                video_summaries := [], audio_transcripts := [] } }]

/-- C9 fails as stated at `N = 0`: `--limit=0` is JS-falsy, so
`if (limit && limit < artifacts.length)` skips the cap and the run processes
all three eligible artifacts instead of zero, and the first artifact's row is
rewritten rather than left untouched. -/
theorem migrator_limit_zero_ignored :
    (selectArtifacts limitScenarioDb (some 0)).length = 3
    ∧ runMigratorDb limitScenarioDb (some 0)
        (fun _ => MigOutcome.ok "https://s.supabase.co/storage/v1/object/public/heirlooms-media/u/a/new.jpg")
        ≠ limitScenarioDb := by
  constructor
  · decide
  · decide

theorem selectArtifacts_take (db : List CloudArtifact) {n : Nat} (hn : 1 ≤ n) :
    selectArtifacts db (some n) = (db.filter hasCloudinaryMedia).take n := by
  have hdef : selectArtifacts db (some n) =
      (if (decide (n ≠ 0) && decide (n < (db.filter hasCloudinaryMedia).length)) = true
       then (db.filter hasCloudinaryMedia).take n
       else (db.filter hasCloudinaryMedia)) := rfl
  rw [hdef]
  split
  · rfl
  · rename_i hcond
    simp only [Bool.and_eq_true, decide_eq_true_eq, not_and] at hcond
    have hge : (db.filter hasCloudinaryMedia).length ≤ n := by
      rcases Nat.lt_or_ge n (db.filter hasCloudinaryMedia).length with hlt | hge2
      · exact absurd hlt (hcond (by omega))
      · exact hge2
    exact (List.take_of_length_le hge).symm

theorem runMigratorFold_untouched (outcome : String → MigOutcome)
    (sel : List CloudArtifact) :
    ∀ db : List CloudArtifact,
      List.Forall₂
        (fun orig fin => orig.id ∈ sel.map (fun a => a.id) ∨ fin = orig) db
        (sel.foldl
          (fun cur a =>
            cur.map (fun b => if b.id = a.id then migrateArtifactDbUpdate outcome a else b))
          db) := by
  induction sel with
  | nil =>
    intro db
    exact List.forall₂_same.mpr (fun x _ => Or.inr rfl)
  | cons a rest ih =>
    intro db
    simp only [List.foldl_cons]
    have h := ih (db.map (fun b => if b.id = a.id then migrateArtifactDbUpdate outcome a else b))
    have h' := List.forall₂_map_left_iff.mp h
    refine h'.imp ?_
    intro o f hof
    by_cases hid : o.id = a.id
    · exact Or.inl (by simp [hid])
    · simp only [hid, if_false] at hof
      rcases hof with hmem | rfl
      · exact Or.inl (by simp only [List.map_cons, List.mem_cons]; exact Or.inr hmem)
      · exact Or.inr rfl

/-- C9 amended: for every run with `--limit=N` where `N ≥ 1` (the cap is
JS-falsy and ignored at `N = 0`), on a dataset with distinct artifact ids the
working set is exactly the first `N` eligible artifacts, and every artifact
not in the working set — in particular every eligible artifact beyond the
first `N` — is left fully untouched, so its URLs still match the
legacy-backend pattern. -/
theorem migrator_limit (db : List CloudArtifact) (outcome : String → MigOutcome)
    (n : Nat) (h1 : (db.map (fun a => a.id)).Nodup) (hn : 1 ≤ n) :
    selectArtifacts db (some n) = (db.filter hasCloudinaryMedia).take n
    ∧ List.Forall₂
        (fun orig fin =>
          orig.id ∈ (selectArtifacts db (some n)).map (fun a => a.id) ∨ fin = orig)
        db (runMigratorDb db (some n) outcome)
    ∧ (∀ a ∈ db, a ∉ selectArtifacts db (some n) →
        a.id ∉ (selectArtifacts db (some n)).map (fun b => b.id)) := by
  refine ⟨selectArtifacts_take db hn, ?_, ?_⟩
  · exact runMigratorFold_untouched outcome (selectArtifacts db (some n)) db
  · intro a ha hnot hmem
    rcases List.mem_map.mp hmem with ⟨b, hb, hid⟩
    have hsub : selectArtifacts db (some n) ⊆ db := by
      rw [selectArtifacts_take db hn]
      exact fun x hx => List.mem_of_mem_filter (List.take_subset _ _ hx)
    have hab : b = a :=
      List.inj_on_of_nodup_map h1 (hsub hb) ha hid
    exact hnot (hab ▸ hb)

/-- Concrete instance for C9 amended: `--limit=1` on the three-artifact
dataset selects exactly the first eligible artifact. -/
theorem migrator_limit_witness :
    selectArtifacts limitScenarioDb (some 1) =
      (limitScenarioDb.filter hasCloudinaryMedia).take 1
    ∧ List.Forall₂
        (fun orig fin =>
          orig.id ∈ (selectArtifacts limitScenarioDb (some 1)).map (fun a => a.id) ∨
            fin = orig)
        limitScenarioDb
        (runMigratorDb limitScenarioDb (some 1)
          (fun _ => MigOutcome.ok "https://s.supabase.co/storage/v1/object/public/heirlooms-media/u/a/new.jpg"))
    ∧ (∀ a ∈ limitScenarioDb, a ∉ selectArtifacts limitScenarioDb (some 1) →
        a.id ∉ (selectArtifacts limitScenarioDb (some 1)).map (fun b => b.id)) :=
  migrator_limit limitScenarioDb
    (fun _ => MigOutcome.ok "https://s.supabase.co/storage/v1/object/public/heirlooms-media/u/a/new.jpg")
    1 (by decide) (by decide)

/-! ## C10: `user_media.storage_path` is set to the full public URL -/

theorem getPublicUrl_ne (supa q : String) : getPublicUrl supa q ≠ q := by
  intro h
  have hlen := congrArg String.length h
  rw [getPublicUrl, String.length_append, String.length_append] at hlen
  have hpos : 0 < ("/storage/v1/object/public/heirlooms-media/" : String).length := by
    decide
  omega

theorem mem_mapSet {m : List (String × String)} {k v : String} {p : String × String}
    (h : p ∈ mapSet m k v) : p ∈ m ∨ p = (k, v) := by
  induction m with
  | nil => simpa [mapSet, jsAssign] using h
  | cons q rest ih =>
    simp only [mapSet, jsAssign] at h
    split at h
    · rcases List.mem_cons.mp h with h | h
      · exact Or.inr h
      · exact Or.inl (List.mem_cons_of_mem _ h)
    · rcases List.mem_cons.mp h with h | h
      · exact Or.inl (h ▸ List.mem_cons_self q rest)
      · rcases ih h with h | h
        · exact Or.inl (List.mem_cons_of_mem _ h)
        · exact Or.inr h

theorem moveTempFile_url_shape {supa : String} {st : List String}
    {url uid aid : String} {st' : List String} {u : String}
    (h : moveTempFile supa st url uid aid = (st', some u)) :
    ∃ q, u = getPublicUrl supa q := by
  rcases hp : extractPathFromUrl url with _ | cp
  · rw [moveTempFile, hp] at h
    injection h with h1 h2
    cases h2
  · rw [moveTempFile, hp] at h
    simp only [moveCopyStep] at h
    split at h
    · injection h with h1 h2
      injection h2 with h2
      exact ⟨_, h2.symm⟩
    · split at h
      · injection h with h1 h2
        injection h2 with h2
        exact ⟨_, h2.symm⟩
      · injection h with h1 h2
        cases h2

theorem tempMigMapping_shape (supa uid aid : String) (urls : List String) :
    ∀ acc : List String × List (String × String),
      (∀ p ∈ acc.2, ∃ q, p.2 = getPublicUrl supa q) →
      ∀ p ∈ (urls.foldl
        (fun acc tempUrl =>
          match moveTempFile supa acc.1 tempUrl uid aid with
          | (st, some newUrl) => (st, mapSet acc.2 tempUrl newUrl)
          | (st, none) => (st, acc.2))
        acc).2, ∃ q, p.2 = getPublicUrl supa q := by
  induction urls with
  | nil => intro acc hacc; exact hacc
  | cons u rest ih =>
    intro acc hacc
    simp only [List.foldl_cons]
    rcases hm : moveTempFile supa acc.1 u uid aid with ⟨st, ou⟩
    rcases ou with _ | newUrl
    · exact ih _ hacc
    · refine ih _ ?_
      intro p hp
      rcases mem_mapSet hp with hp' | hp'
      · exact hacc p hp'
      · subst hp'
        exact moveTempFile_url_shape hm

/-- Once a row has been rewritten into the shape
`storage_path = public_url = getPublicUrl q`, further mapping entries keep it
in that shape. -/
theorem rowFold_keeps_shape (caller supa : String) (mapping : List (String × String))
    (hshape : ∀ p ∈ mapping, ∃ q, p.2 = getPublicUrl supa q) :
    ∀ r : UserMediaRow,
      (r.storage_path = r.public_url ∧ ∃ q, r.public_url = getPublicUrl supa q) →
      ((mapping.foldl
        (fun r p =>
          if r.public_url = p.1 && r.user_id = caller then
            { r with public_url := p.2, storage_path := p.2 }
          else r)
        r).storage_path =
        (mapping.foldl
          (fun r p =>
            if r.public_url = p.1 && r.user_id = caller then
              { r with public_url := p.2, storage_path := p.2 }
            else r)
          r).public_url ∧
        ∃ q, (mapping.foldl
          (fun r p =>
            if r.public_url = p.1 && r.user_id = caller then
              { r with public_url := p.2, storage_path := p.2 }
            else r)
          r).public_url = getPublicUrl supa q) := by
  induction mapping with
  | nil => intro r h; exact h
  | cons p rest ih =>
    intro r h
    simp only [List.foldl_cons]
    split
    · exact ih (fun q hq => hshape q (List.mem_cons_of_mem p hq)) _
        ⟨rfl, hshape p (List.mem_cons_self p rest)⟩
    · exact ih (fun q hq => hshape q (List.mem_cons_of_mem p hq)) r h

theorem rowFold_disj (caller supa : String) (mapping : List (String × String))
    (hshape : ∀ p ∈ mapping, ∃ q, p.2 = getPublicUrl supa q) :
    ∀ r : UserMediaRow,
      (mapping.foldl
        (fun r p =>
          if r.public_url = p.1 && r.user_id = caller then
            { r with public_url := p.2, storage_path := p.2 }
          else r)
        r) = r ∨
      ((mapping.foldl
        (fun r p =>
          if r.public_url = p.1 && r.user_id = caller then
            { r with public_url := p.2, storage_path := p.2 }
          else r)
        r).storage_path =
        (mapping.foldl
          (fun r p =>
            if r.public_url = p.1 && r.user_id = caller then
              { r with public_url := p.2, storage_path := p.2 }
            else r)
          r).public_url ∧
        ∃ q, (mapping.foldl
          (fun r p =>
            if r.public_url = p.1 && r.user_id = caller then
              { r with public_url := p.2, storage_path := p.2 }
            else r)
          r).public_url = getPublicUrl supa q) := by
  induction mapping with
  | nil => intro r; exact Or.inl rfl
  | cons p rest ih =>
    intro r
    simp only [List.foldl_cons]
    split
    · exact Or.inr (rowFold_keeps_shape caller supa rest
        (fun q hq => hshape q (List.mem_cons_of_mem p hq)) _
        ⟨rfl, hshape p (List.mem_cons_self p rest)⟩)
    · exact ih (fun q hq => hshape q (List.mem_cons_of_mem p hq)) r

theorem rowFold_updates_matching (caller supa : String)
    (mapping : List (String × String))
    (hshape : ∀ p ∈ mapping, ∃ q, p.2 = getPublicUrl supa q) :
    ∀ r : UserMediaRow, r.user_id = caller →
      (mapGet mapping r.public_url).isSome →
      ((mapping.foldl
        (fun r p =>
          if r.public_url = p.1 && r.user_id = caller then
            { r with public_url := p.2, storage_path := p.2 }
          else r)
        r).storage_path =
        (mapping.foldl
          (fun r p =>
            if r.public_url = p.1 && r.user_id = caller then
              { r with public_url := p.2, storage_path := p.2 }
            else r)
          r).public_url ∧
        ∃ q, (mapping.foldl
          (fun r p =>
            if r.public_url = p.1 && r.user_id = caller then
              { r with public_url := p.2, storage_path := p.2 }
            else r)
          r).public_url = getPublicUrl supa q) := by
  induction mapping with
  | nil => intro r _ hm; simp [mapGet] at hm
  | cons p rest ih =>
    intro r howner hm
    simp only [List.foldl_cons]
    by_cases hk : r.public_url = p.1
    · rw [if_pos (by simp [hk, howner])]
      exact rowFold_keeps_shape caller supa rest
        (fun q hq => hshape q (List.mem_cons_of_mem p hq)) _
        ⟨rfl, hshape p (List.mem_cons_self p rest)⟩
    · rw [if_neg (by simp [hk])]
      refine ih (fun q hq => hshape q (List.mem_cons_of_mem p hq)) r howner ?_
      have hne : ¬ p.1 = r.public_url := fun hh => hk hh.symm
      simp only [mapGet, if_neg hne] at hm
      exact hm

theorem applyUserMediaUpdates_eq_map (caller : String) :
    ∀ (mapping : List (String × String)) (rows : List UserMediaRow),
      applyUserMediaUpdates caller mapping rows =
        rows.map (fun r =>
          mapping.foldl
            (fun r p =>
              if r.public_url = p.1 && r.user_id = caller then
                { r with public_url := p.2, storage_path := p.2 }
              else r)
            r) := by
  intro mapping
  induction mapping with
  | nil => intro rows; simp [applyUserMediaUpdates]
  | cons p rest ih =>
    intro rows
    show applyUserMediaUpdates caller rest (rows.map _) = _
    rw [ih, List.map_map]
    rfl

theorem updateUserMediaRecords_eq_map :
    ∀ (mapping : List (String × String)) (rows : List UserMediaRow),
      updateUserMediaRecords mapping rows =
        rows.map (fun r =>
          mapping.foldl
            (fun r p =>
              if r.public_url = p.1 then
                { r with public_url := p.2, storage_path := p.2 }
              else r)
            r) := by
  intro mapping
  induction mapping with
  | nil => intro rows; simp [updateUserMediaRecords]
  | cons p rest ih =>
    intro rows
    show updateUserMediaRecords rest (rows.map _) = _
    rw [ih, List.map_map]
    rfl

/-- Like `rowFold_keeps_shape`, for the Cloudinary migrator's `user_media`
fold, which applies no user filter. -/
theorem rowFoldAny_keeps_shape (supa : String) (mapping : List (String × String))
    (hshape : ∀ p ∈ mapping, ∃ q, p.2 = getPublicUrl supa q) :
    ∀ r : UserMediaRow,
      (r.storage_path = r.public_url ∧ ∃ q, r.public_url = getPublicUrl supa q) →
      ((mapping.foldl
        (fun r p =>
          if r.public_url = p.1 then
            { r with public_url := p.2, storage_path := p.2 }
          else r) r).storage_path =
        (mapping.foldl
          (fun r p =>
            if r.public_url = p.1 then
              { r with public_url := p.2, storage_path := p.2 }
            else r) r).public_url ∧
        ∃ q, (mapping.foldl
          (fun r p =>
            if r.public_url = p.1 then
              { r with public_url := p.2, storage_path := p.2 }
            else r) r).public_url = getPublicUrl supa q) := by
  induction mapping with
  | nil => intro r h; exact h
  | cons p rest ih =>
    intro r h
    simp only [List.foldl_cons]
    split
    · exact ih (fun q hq => hshape q (List.mem_cons_of_mem p hq)) _
        ⟨rfl, hshape p (List.mem_cons_self p rest)⟩
    · exact ih (fun q hq => hshape q (List.mem_cons_of_mem p hq)) r h

theorem rowFoldAny_disj (supa : String) (mapping : List (String × String))
    (hshape : ∀ p ∈ mapping, ∃ q, p.2 = getPublicUrl supa q) :
    ∀ r : UserMediaRow,
      (mapping.foldl
        (fun r p =>
          if r.public_url = p.1 then
            { r with public_url := p.2, storage_path := p.2 }
          else r) r) = r ∨
      ((mapping.foldl
        (fun r p =>
          if r.public_url = p.1 then
            { r with public_url := p.2, storage_path := p.2 }
          else r) r).storage_path =
        (mapping.foldl
          (fun r p =>
            if r.public_url = p.1 then
              { r with public_url := p.2, storage_path := p.2 }
            else r) r).public_url ∧
        ∃ q, (mapping.foldl
          (fun r p =>
            if r.public_url = p.1 then
              { r with public_url := p.2, storage_path := p.2 }
            else r) r).public_url = getPublicUrl supa q) := by
  induction mapping with
  | nil => intro r; exact Or.inl rfl
  | cons p rest ih =>
    intro r
    simp only [List.foldl_cons]
    split
    · exact Or.inr (rowFoldAny_keeps_shape supa rest
        (fun q hq => hshape q (List.mem_cons_of_mem p hq)) _
        ⟨rfl, hshape p (List.mem_cons_self p rest)⟩)
    · exact ih (fun q hq => hshape q (List.mem_cons_of_mem p hq)) r

theorem rowFoldAny_updates_matching (supa : String)
    (mapping : List (String × String))
    (hshape : ∀ p ∈ mapping, ∃ q, p.2 = getPublicUrl supa q) :
    ∀ r : UserMediaRow,
      (mapGet mapping r.public_url).isSome →
      ((mapping.foldl
        (fun r p =>
          if r.public_url = p.1 then
            { r with public_url := p.2, storage_path := p.2 }
          else r) r).storage_path =
        (mapping.foldl
          (fun r p =>
            if r.public_url = p.1 then
              { r with public_url := p.2, storage_path := p.2 }
            else r) r).public_url ∧
        ∃ q, (mapping.foldl
          (fun r p =>
            if r.public_url = p.1 then
              { r with public_url := p.2, storage_path := p.2 }
            else r) r).public_url = getPublicUrl supa q) := by
  induction mapping with
  | nil => intro r hm; simp [mapGet] at hm
  | cons p rest ih =>
    intro r hm
    simp only [List.foldl_cons]
    by_cases hk : r.public_url = p.1
    · rw [if_pos hk]
      exact rowFoldAny_keeps_shape supa rest
        (fun q hq => hshape q (List.mem_cons_of_mem p hq)) _
        ⟨rfl, hshape p (List.mem_cons_self p rest)⟩
    · rw [if_neg hk]
      refine ih (fun q hq => hshape q (List.mem_cons_of_mem p hq)) r ?_
      have hne : ¬ p.1 = r.public_url := fun hh => hk hh.symm
      simp only [mapGet, if_neg hne] at hm
      exact hm

/-- The URL mappings recorded by `migrateArtifact` all map to URLs built by
`uploadToSupabase`, which always returns
`${SUPABASE_URL}/storage/v1/object/public/${STORAGE_BUCKET}/${path}` — the
`houtcome` hypothesis is that collaborator contract. -/
theorem migrateFold_mappings_shape (supa : String) (outcome : String → MigOutcome)
    (houtcome : ∀ u n, outcome u = MigOutcome.ok n → ∃ q, n = getPublicUrl supa q)
    (urls : List String) :
    ∀ res : MigrationResult,
      (∀ p ∈ res.urlMappings, ∃ q, p.2 = getPublicUrl supa q) →
      ∀ p ∈ (urls.foldl
        (fun res oldUrl =>
          match outcome oldUrl with
          | MigOutcome.downloadFail =>
            { res with errors := res.errors ++ ["Failed to download: " ++ oldUrl] }
          | MigOutcome.uploadFail =>
            { res with errors := res.errors ++ ["Failed to upload: " ++ oldUrl] }
          | MigOutcome.ok newUrl =>
            { res with
              urlMappings := mapSet res.urlMappings oldUrl newUrl
              migratedUrls := res.migratedUrls + 1 })
        res).urlMappings, ∃ q, p.2 = getPublicUrl supa q := by
  induction urls with
  | nil => intro res h; exact h
  | cons u rest ih =>
    intro res h
    simp only [List.foldl_cons]
    rcases ho : outcome u with _ | _ | n
    · exact ih _ h
    · exact ih _ h
    · refine ih _ ?_
      intro p hp
      rcases mem_mapSet hp with hp' | hp'
      · exact h p hp'
      · subst hp'
        exact houtcome u n ho

theorem migrateArtifact_mappings_shape (supa : String)
    (outcome : String → MigOutcome)
    (houtcome : ∀ u n, outcome u = MigOutcome.ok n → ∃ q, n = getPublicUrl supa q)
    (ca : CloudArtifact) :
    ∀ p ∈ (migrateArtifact outcome ca).urlMappings,
      ∃ q, p.2 = getPublicUrl supa q :=
  migrateFold_mappings_shape supa outcome houtcome (cloudUrlsOf ca) _ (by simp)

/-! ## Support lemmas for the reorganize consistency theorem (C1) -/

theorem mapGet_eq_none_iff (m : List (String × String)) (k : String) :
    mapGet m k = none ↔ k ∉ m.map Prod.fst := by
  induction m with
  | nil => simp [mapGet]
  | cons p rest ih =>
    simp only [mapGet, List.map_cons, List.mem_cons]
    split
    · rename_i hp
      simp [hp.symm]
    · rename_i hp
      rw [ih]
      constructor
      · intro h hk
        rcases hk with hk | hk
        · exact hp hk.symm
        · exact h hk
      · intro h
        exact fun hk => h (Or.inr hk)

theorem dedupFirst_nodup (l : List String) : (dedupFirst l).Nodup := by
  have haux : ∀ (l acc : List String), acc.Nodup →
      (l.foldl (fun acc u => if u ∈ acc then acc else acc ++ [u]) acc).Nodup := by
    intro l
    induction l with
    | nil => intro acc h; exact h
    | cons u rest ih =>
      intro acc h
      simp only [List.foldl_cons]
      split
      · exact ih acc h
      · rename_i hnot
        refine ih _ ?_
        rw [List.nodup_append]
        exact ⟨h, List.nodup_singleton u, by
          intro a ha hb
          simp only [List.mem_singleton] at hb
          subst hb
          exact hnot ha⟩
  exact haux l [] List.nodup_nil

theorem mem_dedupFirst {l : List String} {a : String} :
    a ∈ dedupFirst l ↔ a ∈ l := by
  have haux : ∀ (l acc : List String),
      a ∈ (l.foldl (fun acc u => if u ∈ acc then acc else acc ++ [u]) acc) ↔
      a ∈ acc ∨ a ∈ l := by
    intro l
    induction l with
    | nil => intro acc; simp
    | cons u rest ih =>
      intro acc
      simp only [List.foldl_cons]
      split
      · rename_i hmem
        rw [ih]
        constructor
        · intro h
          rcases h with h | h
          · exact Or.inl h
          · exact Or.inr (List.mem_cons_of_mem u h)
        · intro h
          rcases h with h | h
          · exact Or.inl h
          · rcases List.mem_cons.mp h with rfl | h
            · exact Or.inl hmem
            · exact Or.inr h
      · rw [ih]
        constructor
        · intro h
          rcases h with h | h
          · rcases List.mem_append.mp h with h | h
            · exact Or.inl h
            · simp only [List.mem_singleton] at h
              exact Or.inr (h ▸ List.mem_cons_self u rest)
          · exact Or.inr (List.mem_cons_of_mem u h)
        · intro h
          rcases h with h | h
          · exact Or.inl (List.mem_append_left _ h)
          · rcases List.mem_cons.mp h with rfl | h
            · exact Or.inl (List.mem_append_right _ (by simp))
            · exact Or.inr h
  rw [dedupFirst, haux l []]
  simp

theorem buildMapping_mem (mover : String → Option String) (l : List String) :
    ∀ p ∈ buildMapping mover l,
      p.1 ∈ l ∧ mover p.1 = some p.2 ∧ p.2 ≠ "" ∧ p.2 ≠ p.1 ∧
        isSupabaseStorageUrl p.1 = true := by
  suffices haux : ∀ (ul : List String) (acc : List (String × String)),
      ∀ p ∈ (ul.foldl
        (fun acc u =>
          if isSupabaseStorageUrl u then
            match mover u with
            | none => acc
            | some n => if n = "" then acc else if n = u then acc else acc ++ [(u, n)]
          else acc) acc),
        p ∈ acc ∨ (p.1 ∈ ul ∧ mover p.1 = some p.2 ∧ p.2 ≠ "" ∧ p.2 ≠ p.1 ∧
          isSupabaseStorageUrl p.1 = true) by
    intro p hp
    rcases haux l [] p hp with h | h
    · simp at h
    · exact h
  intro ul
  induction ul with
  | nil => intro acc p hp; exact Or.inl hp
  | cons u rest ih =>
    intro acc p hp
    simp only [List.foldl_cons] at hp
    have step :
        ∀ q ∈ (if isSupabaseStorageUrl u then
            match mover u with
            | none => acc
            | some n => if n = "" then acc else if n = u then acc else acc ++ [(u, n)]
          else acc),
          q ∈ acc ∨ (q.1 = u ∧ mover q.1 = some q.2 ∧ q.2 ≠ "" ∧ q.2 ≠ q.1 ∧
            isSupabaseStorageUrl q.1 = true) := by
      intro q hq
      split at hq
      · rename_i hsup
        rcases hmv : mover u with _ | n
        · simp only [hmv] at hq
          exact Or.inl hq
        · simp only [hmv] at hq
          split at hq
          · exact Or.inl hq
          · split at hq
            · exact Or.inl hq
            · rcases List.mem_append.mp hq with hq | hq
              · exact Or.inl hq
              · simp only [List.mem_singleton] at hq
                subst hq
                rename_i hn0 hnu
                exact Or.inr ⟨rfl, hmv, hn0, hnu, hsup⟩
      · exact Or.inl hq
    rcases ih _ p hp with h | h
    · rcases step p h with h' | h'
      · exact Or.inl h'
      · refine Or.inr ⟨?_, h'.2.1, h'.2.2.1, h'.2.2.2.1, h'.2.2.2.2⟩
        rw [h'.1]
        exact List.mem_cons_self u rest
    · exact Or.inr ⟨List.mem_cons_of_mem u h.1, h.2.1, h.2.2.1, h.2.2.2.1, h.2.2.2.2⟩

theorem buildMapping_keys_nodup (mover : String → Option String) (l : List String)
    (hl : l.Nodup) : ((buildMapping mover l).map Prod.fst).Nodup := by
  suffices haux : ∀ (ul : List String) (acc : List (String × String)),
      ul.Nodup → (acc.map Prod.fst).Nodup →
      (∀ u ∈ ul, u ∉ acc.map Prod.fst) →
      (((ul.foldl
        (fun acc u =>
          if isSupabaseStorageUrl u then
            match mover u with
            | none => acc
            | some n => if n = "" then acc else if n = u then acc else acc ++ [(u, n)]
          else acc) acc)).map Prod.fst).Nodup by
    exact haux l [] hl (by simp) (by simp)
  intro ul
  induction ul with
  | nil => intro acc _ hacc _; exact hacc
  | cons u rest ih =>
    intro acc hnd hacc hdis
    simp only [List.foldl_cons]
    have hrest₁ : rest.Nodup := (List.nodup_cons.mp hnd).2
    have hunotrest : u ∉ rest := (List.nodup_cons.mp hnd).1
    have hkeys : ∀ acc' : List (String × String),
        (acc'.map Prod.fst = acc.map Prod.fst ∨
          acc'.map Prod.fst = acc.map Prod.fst ++ [u]) →
        (acc'.map Prod.fst).Nodup ∧ (∀ w ∈ rest, w ∉ acc'.map Prod.fst) := by
      intro acc' hor
      rcases hor with he | he
      · rw [he]
        exact ⟨hacc, fun w hw => hdis w (List.mem_cons_of_mem u hw)⟩
      · rw [he]
        constructor
        · rw [List.nodup_append]
          exact ⟨hacc, List.nodup_singleton u, by
            intro a ha hb
            simp only [List.mem_singleton] at hb
            exact hdis u (List.mem_cons_self u rest) (hb ▸ ha)⟩
        · intro w hw hmem
          rcases List.mem_append.mp hmem with hmem | hmem
          · exact hdis w (List.mem_cons_of_mem u hw) hmem
          · simp only [List.mem_singleton] at hmem
            exact hunotrest (hmem ▸ hw)
    have hstep :
        ((if isSupabaseStorageUrl u then
            match mover u with
            | none => acc
            | some n => if n = "" then acc else if n = u then acc else acc ++ [(u, n)]
          else acc)).map Prod.fst = acc.map Prod.fst ∨
        ((if isSupabaseStorageUrl u then
            match mover u with
            | none => acc
            | some n => if n = "" then acc else if n = u then acc else acc ++ [(u, n)]
          else acc)).map Prod.fst = acc.map Prod.fst ++ [u] := by
      by_cases hsup : isSupabaseStorageUrl u = true
      · simp only [if_pos hsup]
        rcases hmv : mover u with _ | n
        · simp [hmv]
        · simp only [hmv]
          by_cases hn0 : n = ""
          · simp [if_pos hn0]
          · simp only [if_neg hn0]
            by_cases hnu : n = u
            · simp [if_pos hnu]
            · simp only [if_neg hnu]
              right
              rw [List.map_append]
              rfl
      · simp [if_neg hsup]
    obtain ⟨h1, h2⟩ := hkeys _ hstep
    exact ih _ hrest₁ h1 h2

theorem getOrFalsy_ne_of_not_value (m : List (String × String)) (u n : String)
    (hvals : ∀ p ∈ m, p.2 ≠ u) (hu : mapGet m u = some n) (hn : n ≠ "") :
    ∀ w, getOrFalsy m w ≠ u := by
  intro w
  rcases hw : mapGet m w with _ | v
  · rw [getOrFalsy_of_none hw]
    intro hh
    rw [hh, hu] at hw
    cases hw
  · by_cases hv0 : v = ""
    · subst hv0
      have hge : getOrFalsy m w = w := by
        rw [getOrFalsy, hw]
        simp
      rw [hge]
      intro hh
      rw [hh, hu] at hw
      injection hw with hw
      exact hn hw
    · rw [getOrFalsy_of_some hw hv0]
      exact hvals (w, v) (mapGet_some_mem hw)

theorem isSupabaseStorageUrl_ne_empty {u : String}
    (h : isSupabaseStorageUrl u = true) : u ≠ "" := by
  intro hh
  rw [hh] at h
  exact absurd h (by decide)

theorem rowFold_unmatched (caller : String) :
    ∀ (M : List (String × String)) (r : UserMediaRow),
      r.public_url ∉ M.map Prod.fst →
      M.foldl
        (fun r p =>
          if r.public_url = p.1 && r.user_id = caller then
            { r with public_url := p.2, storage_path := p.2 }
          else r) r = r := by
  intro M
  induction M with
  | nil => intro r _; rfl
  | cons p rest ih =>
    intro r hr
    simp only [List.foldl_cons]
    have hne : ¬ r.public_url = p.1 := by
      intro hh
      exact hr (by simp only [List.map_cons, List.mem_cons]; exact Or.inl hh)
    rw [if_neg (by simp [hne])]
    exact ih r (fun hh => hr (List.mem_cons_of_mem _ hh))

theorem rowFold_matched (caller : String) :
    ∀ (M : List (String × String)) (r : UserMediaRow) (n : String),
      (∀ p ∈ M, p.2 ∉ M.map Prod.fst) →
      mapGet M r.public_url = some n → r.user_id = caller →
      M.foldl
        (fun r p =>
          if r.public_url = p.1 && r.user_id = caller then
            { r with public_url := p.2, storage_path := p.2 }
          else r) r =
        { r with public_url := n, storage_path := n } := by
  intro M
  induction M with
  | nil => intro r n _ hmg _; simp [mapGet] at hmg
  | cons p rest ih =>
    intro r n hvk hmg howner
    simp only [List.foldl_cons]
    by_cases hk : r.public_url = p.1
    · rw [if_pos (by simp [hk, howner])]
      have hpn : p.2 = n := by
        have : mapGet (p :: rest) r.public_url = some p.2 := by
          simp [mapGet, hk.symm]
        rw [this] at hmg
        injection hmg
      have hnot : ({ r with public_url := p.2, storage_path := p.2 } :
          UserMediaRow).public_url ∉ rest.map Prod.fst := by
        intro hmem
        exact hvk p (List.mem_cons_self p rest)
          (by simp only [List.map_cons, List.mem_cons]; exact Or.inr hmem)
      rw [rowFold_unmatched caller rest _ hnot, hpn]
    · rw [if_neg (by simp [hk])]
      refine ih r n ?_ ?_ howner
      · intro q hq hmem
        exact hvk q (List.mem_cons_of_mem p hq)
          (by simp only [List.map_cons, List.mem_cons]; exact Or.inr hmem)
      · have hne : ¬ p.1 = r.public_url := fun hh => hk hh.symm
        simpa [mapGet, hne] using hmg

theorem rowFold_ne (caller : String) (M : List (String × String))
    (r : UserMediaRow) (u n : String)
    (hvk : ∀ p ∈ M, p.2 ∉ M.map Prod.fst)
    (hvals : ∀ p ∈ M, p.2 ≠ u)
    (hmg : mapGet M u = some n)
    (howner : r.user_id = caller) :
    (M.foldl
      (fun r p =>
        if r.public_url = p.1 && r.user_id = caller then
          { r with public_url := p.2, storage_path := p.2 }
        else r) r).public_url ≠ u := by
  rcases hr : mapGet M r.public_url with _ | v
  · rw [rowFold_unmatched caller M r ((mapGet_eq_none_iff M _).mp hr)]
    intro hh
    rw [hh, hmg] at hr
    cases hr
  · rw [rowFold_matched caller M r v hvk hr howner]
    exact hvals (r.public_url, v) (mapGet_some_mem hr)

/-! ## C1: reorganize keeps every reference location consistent -/

/-- C1: after `reorganizeArtifactMedia` over an artifact whose per-URL
relocations partly succeed and partly fail, the state is never split between
old and new URLs for the same blob.  For every URL `u` in the processed
union: if `u` has no entry in the recorded mapping (its relocation failed,
was a no-op, or it is not a storage URL), then every reference location —
each media-block position, the thumbnail, each JSON-map key, and each
matching `user_media` row — still holds exactly its old value; and if `u`
was relocated to `n`, then every reference location that held `u` now holds
`n` and no location still holds `u`.  The hypotheses state the collaborator
contract (relocation targets are fresh URLs, distinct from every URL already
on the artifact) and the ownership assumption (the artifact's `user_media`
rows belong to the caller). -/
theorem reorganize_consistent (g : RefGraph) (rows : List UserMediaRow)
    (galleryUrls : List String) (caller : String) (mover : String → Option String)
    (g' : RefGraph) (rows' : List UserMediaRow)
    (hres : reorganizeArtifactMedia g rows galleryUrls caller mover = (g', rows'))
    (hfresh : ∀ u n, u ∈ reorgAllUrls g galleryUrls → mover u = some n → n ≠ u →
      n ∉ reorgAllUrls g galleryUrls)
    (hrows : ∀ r ∈ rows, r.user_id = caller) :
    ∀ u ∈ reorgAllUrls g galleryUrls,
      (mapGet (buildMapping mover (reorgAllUrls g galleryUrls)) u = none →
        (∀ i, g.media_urls.get? i = some u → g'.media_urls.get? i = some u)
        ∧ (g.thumbnail_url = some u → g'.thumbnail_url = some u)
        ∧ ((mapGet g.image_captions u).isSome → (mapGet g'.image_captions u).isSome)
        ∧ ((mapGet g.video_summaries u).isSome → (mapGet g'.video_summaries u).isSome)
        ∧ ((mapGet g.audio_transcripts u).isSome → (mapGet g'.audio_transcripts u).isSome)
        ∧ (∀ i r, rows.get? i = some r → r.public_url = u → rows'.get? i = some r))
      ∧ (∀ n, mapGet (buildMapping mover (reorgAllUrls g galleryUrls)) u = some n →
        (∀ i, g.media_urls.get? i = some u → g'.media_urls.get? i = some n)
        ∧ (∀ i, g'.media_urls.get? i ≠ some u)
        ∧ (g.thumbnail_url = some u → g'.thumbnail_url = some n)
        ∧ g'.thumbnail_url ≠ some u
        ∧ ((mapGet g.image_captions u).isSome → (mapGet g'.image_captions n).isSome)
        ∧ mapGet g'.image_captions u = none
        ∧ ((mapGet g.video_summaries u).isSome → (mapGet g'.video_summaries n).isSome)
        ∧ mapGet g'.video_summaries u = none
        ∧ ((mapGet g.audio_transcripts u).isSome → (mapGet g'.audio_transcripts n).isSome)
        ∧ mapGet g'.audio_transcripts u = none
        ∧ (∀ i r, rows.get? i = some r → r.public_url = u →
            rows'.get? i = some { r with public_url := n, storage_path := n })
        ∧ (∀ i r', rows'.get? i = some r' → r'.public_url ≠ u)) := by
  intro u hu
  constructor
  · intro hnone
    have hfix : getOrFalsy (buildMapping mover (reorgAllUrls g galleryUrls)) u = u :=
      getOrFalsy_of_none hnone
    rcases hM : buildMapping mover (reorgAllUrls g galleryUrls) with _ | ⟨p, M'⟩
    · -- empty mapping: the whole state is untouched
      have hid : g' = g ∧ rows' = rows := by
        rw [reorganizeArtifactMedia] at hres
        simp only [hM, if_pos rfl] at hres
        exact ⟨(Prod.mk.injEq .. ▸ hres).1.symm, (Prod.mk.injEq .. ▸ hres).2.symm⟩
      rw [hid.1, hid.2]
      exact ⟨fun i hi => hi, fun h => h, fun h => h, fun h => h, fun h => h,
        fun i r hi _ => hi⟩
    · -- nonempty mapping: the graph is rewritten, but u is untouched
      have hne : buildMapping mover (reorgAllUrls g galleryUrls) ≠ [] := by
        rw [hM]; intro hh; cases hh
      have hgr : g' = rewriteGraph g (buildMapping mover (reorgAllUrls g galleryUrls))
          ∧ rows' = applyUserMediaUpdates caller
              (buildMapping mover (reorgAllUrls g galleryUrls)) rows := by
        rw [reorganizeArtifactMedia] at hres
        simp only [if_neg hne] at hres
        exact ⟨(Prod.mk.injEq .. ▸ hres).1.symm, (Prod.mk.injEq .. ▸ hres).2.symm⟩
      rw [hgr.1, hgr.2]
      refine ⟨?_, ?_, ?_, ?_, ?_, ?_⟩
      · intro i hi
        show ((g.media_urls.map (getOrFalsy _)).get? i) = some u
        rw [List.get?_map, hi]
        simp [hfix]
      · intro ht
        show thumbRewrite _ g.thumbnail_url = some u
        rw [ht]
        by_cases hu0 : u = ""
        · simp [thumbRewrite, hu0]
        · simp [thumbRewrite, hu0, hnone]
      · intro hc
        have := rewriteFold_image (buildMapping mover (reorgAllUrls g galleryUrls))
          g.image_captions [] u hc
        rwa [hfix] at this
      · intro hc
        have := rewriteFold_image (buildMapping mover (reorgAllUrls g galleryUrls))
          g.video_summaries [] u hc
        rwa [hfix] at this
      · intro hc
        have := rewriteFold_image (buildMapping mover (reorgAllUrls g galleryUrls))
          g.audio_transcripts [] u hc
        rwa [hfix] at this
      · intro i r hi hurl
        rw [applyUserMediaUpdates_eq_map, List.get?_map, hi]
        have : (buildMapping mover (reorgAllUrls g galleryUrls)).foldl
            (fun r p =>
              if r.public_url = p.1 && r.user_id = caller then
                { r with public_url := p.2, storage_path := p.2 }
              else r) r = r := by
          apply rowFold_unmatched
          rw [hurl]
          exact (mapGet_eq_none_iff _ _).mp hnone
        rw [show ∀ (f : UserMediaRow → UserMediaRow) (x : UserMediaRow),
            Option.map f (some x) = some (f x) from fun _ _ => rfl]
        rw [this]
  · intro n hsome
    have hentry := mapGet_some_mem hsome
    have hchar := buildMapping_mem mover (reorgAllUrls g galleryUrls) _ hentry
    have hn0 : n ≠ "" := hchar.2.2.1
    have hnu : n ≠ u := hchar.2.2.2.1
    have hsup : isSupabaseStorageUrl u = true := hchar.2.2.2.2
    have hu0 : u ≠ "" := isSupabaseStorageUrl_ne_empty hsup
    have hvalsAll : ∀ p ∈ buildMapping mover (reorgAllUrls g galleryUrls),
        p.2 ∉ reorgAllUrls g galleryUrls := by
      intro p hp
      have c := buildMapping_mem mover (reorgAllUrls g galleryUrls) p hp
      exact hfresh p.1 p.2 c.1 c.2.1 c.2.2.2.1
    have hvalsNeU : ∀ p ∈ buildMapping mover (reorgAllUrls g galleryUrls),
        p.2 ≠ u := by
      intro p hp hh
      exact hvalsAll p hp (hh ▸ hu)
    have hkeysAll : ∀ k ∈ (buildMapping mover (reorgAllUrls g galleryUrls)).map Prod.fst,
        k ∈ reorgAllUrls g galleryUrls := by
      intro k hk
      rcases List.mem_map.mp hk with ⟨p, hp, hpk⟩
      exact hpk ▸ (buildMapping_mem mover (reorgAllUrls g galleryUrls) p hp).1
    have hvk : ∀ p ∈ buildMapping mover (reorgAllUrls g galleryUrls),
        p.2 ∉ (buildMapping mover (reorgAllUrls g galleryUrls)).map Prod.fst := by
      intro p hp hmem
      exact hvalsAll p hp (hkeysAll _ hmem)
    have hfu : getOrFalsy (buildMapping mover (reorgAllUrls g galleryUrls)) u = n :=
      getOrFalsy_of_some hsome hn0
    have hfne : ∀ w, getOrFalsy (buildMapping mover (reorgAllUrls g galleryUrls)) w ≠ u :=
      getOrFalsy_ne_of_not_value _ u n hvalsNeU hsome hn0
    have hne : buildMapping mover (reorgAllUrls g galleryUrls) ≠ [] := by
      intro hh
      rw [hh] at hsome
      simp [mapGet] at hsome
    have hgr : g' = rewriteGraph g (buildMapping mover (reorgAllUrls g galleryUrls))
        ∧ rows' = applyUserMediaUpdates caller
            (buildMapping mover (reorgAllUrls g galleryUrls)) rows := by
      rw [reorganizeArtifactMedia] at hres
      simp only [if_neg hne] at hres
      exact ⟨(Prod.mk.injEq .. ▸ hres).1.symm, (Prod.mk.injEq .. ▸ hres).2.symm⟩
    rw [hgr.1, hgr.2]
    refine ⟨?_, ?_, ?_, ?_, ?_, ?_, ?_, ?_, ?_, ?_, ?_, ?_⟩
    · intro i hi
      show ((g.media_urls.map (getOrFalsy _)).get? i) = some n
      rw [List.get?_map, hi]
      simp [hfu]
    · intro i
      show ((g.media_urls.map (getOrFalsy _)).get? i) ≠ some u
      rw [List.get?_map]
      rcases g.media_urls.get? i with _ | w
      · simp
      · rw [show ∀ (f : String → String) (x : String),
            Option.map f (some x) = some (f x) from fun _ _ => rfl]
        intro hh
        injection hh with hh
        exact hfne w hh
    · intro ht
      show thumbRewrite _ g.thumbnail_url = some n
      rw [ht]
      simp [thumbRewrite, hu0, hsome]
    · show thumbRewrite _ g.thumbnail_url ≠ some u
      rcases ht : g.thumbnail_url with _ | t
      · simp [thumbRewrite]
      · by_cases ht0 : t = ""
        · simp only [thumbRewrite, ht0, if_pos rfl]
          intro hh
          injection hh with hh
          exact hu0 hh.symm
        · rcases hmt : mapGet (buildMapping mover (reorgAllUrls g galleryUrls)) t with _ | v
          · simp only [thumbRewrite, if_neg ht0, hmt]
            intro hh
            injection hh with hh
            rw [hh, hsome] at hmt
            cases hmt
          · simp only [thumbRewrite, if_neg ht0, hmt]
            intro hh
            injection hh with hh
            exact hvalsNeU (t, v) (mapGet_some_mem hmt) hh
    · intro hc
      have := rewriteFold_image (buildMapping mover (reorgAllUrls g galleryUrls))
        g.image_captions [] u hc
      rwa [hfu] at this
    · show mapGet (rewriteJsObject (buildMapping mover (reorgAllUrls g galleryUrls))
          g.image_captions) u = none
      rcases hc : mapGet (rewriteJsObject (buildMapping mover (reorgAllUrls g galleryUrls))
          g.image_captions) u with _ | v
      · rfl
      · exfalso
        have hsm : (mapGet (rewriteJsObject (buildMapping mover (reorgAllUrls g galleryUrls))
            g.image_captions) u).isSome := by rw [hc]; rfl
        rcases rewriteFold_shape _ g.image_captions [] u hsm with h | ⟨w, _, hw⟩
        · simp [mapGet] at h
        · exact hfne w hw
    · intro hc
      have := rewriteFold_image (buildMapping mover (reorgAllUrls g galleryUrls))
        g.video_summaries [] u hc
      rwa [hfu] at this
    · show mapGet (rewriteJsObject (buildMapping mover (reorgAllUrls g galleryUrls))
          g.video_summaries) u = none
      rcases hc : mapGet (rewriteJsObject (buildMapping mover (reorgAllUrls g galleryUrls))
          g.video_summaries) u with _ | v
      · rfl
      · exfalso
        have hsm : (mapGet (rewriteJsObject (buildMapping mover (reorgAllUrls g galleryUrls))
            g.video_summaries) u).isSome := by rw [hc]; rfl
        rcases rewriteFold_shape _ g.video_summaries [] u hsm with h | ⟨w, _, hw⟩
        · simp [mapGet] at h
        · exact hfne w hw
    · intro hc
      have := rewriteFold_image (buildMapping mover (reorgAllUrls g galleryUrls))
        g.audio_transcripts [] u hc
      rwa [hfu] at this
    · show mapGet (rewriteJsObject (buildMapping mover (reorgAllUrls g galleryUrls))
          g.audio_transcripts) u = none
      rcases hc : mapGet (rewriteJsObject (buildMapping mover (reorgAllUrls g galleryUrls))
          g.audio_transcripts) u with _ | v
      · rfl
      · exfalso
        have hsm : (mapGet (rewriteJsObject (buildMapping mover (reorgAllUrls g galleryUrls))
            g.audio_transcripts) u).isSome := by rw [hc]; rfl
        rcases rewriteFold_shape _ g.audio_transcripts [] u hsm with h | ⟨w, _, hw⟩
        · simp [mapGet] at h
        · exact hfne w hw
    · intro i r hi hurl
      rw [applyUserMediaUpdates_eq_map, List.get?_map, hi]
      rw [show ∀ (f : UserMediaRow → UserMediaRow) (x : UserMediaRow),
          Option.map f (some x) = some (f x) from fun _ _ => rfl]
      have := rowFold_matched caller (buildMapping mover (reorgAllUrls g galleryUrls))
        r n hvk (by rw [hurl]; exact hsome)
        (hrows r (by
          have := List.get?_mem hi
          exact this))
      rw [this]
    · intro i r' hi
      rw [applyUserMediaUpdates_eq_map, List.get?_map] at hi
      rcases hr : rows.get? i with _ | r
      · rw [hr] at hi
        cases hi
      · rw [hr] at hi
        rw [show ∀ (f : UserMediaRow → UserMediaRow) (x : UserMediaRow),
            Option.map f (some x) = some (f x) from fun _ _ => rfl] at hi
        injection hi with hi
        rw [← hi]
        exact rowFold_ne caller _ r u n hvk hvalsNeU hsome
          (hrows r (List.get?_mem hr))

/-- Witness scenario for C1: temp blob A relocates successfully, temp blob B
fails. -/
def reorgWitnessGraph : RefGraph :=
  { media_urls :=
      ["https://p.supabase.co/storage/v1/object/public/heirlooms-media/temp/u/a.jpg",
       "https://p.supabase.co/storage/v1/object/public/heirlooms-media/temp/u/b.jpg"]
    thumbnail_url :=
      some "https://p.supabase.co/storage/v1/object/public/heirlooms-media/temp/u/a.jpg"
    image_captions :=
      [("https://p.supabase.co/storage/v1/object/public/heirlooms-media/temp/u/a.jpg", "capA"),
       ("https://p.supabase.co/storage/v1/object/public/heirlooms-media/temp/u/b.jpg", "capB")]
    video_summaries := []
    audio_transcripts := [] }

def reorgWitnessRows : List UserMediaRow :=
  [{ id := "m1", user_id := "u1", storage_path := "temp/u/a.jpg"
     public_url := "https://p.supabase.co/storage/v1/object/public/heirlooms-media/temp/u/a.jpg" },
   { id := "m2", user_id := "u1", storage_path := "temp/u/b.jpg"
     public_url := "https://p.supabase.co/storage/v1/object/public/heirlooms-media/temp/u/b.jpg" }]

def reorgWitnessMover : String → Option String := fun u =>
  if u = "https://p.supabase.co/storage/v1/object/public/heirlooms-media/temp/u/a.jpg" then
    some "https://p.supabase.co/storage/v1/object/public/heirlooms-media/u1/art1/a.jpg"
  else none

/-- Concrete instance for C1: blob A's new URL appears in the media list,
captions and `user_media`, and its old URL is gone from all of them; blob B
keeps its old URL in all of them. -/
theorem reorganize_consistent_witness :
    (reorganizeArtifactMedia reorgWitnessGraph reorgWitnessRows [] "u1"
        reorgWitnessMover).1.media_urls.get? 0 =
      some "https://p.supabase.co/storage/v1/object/public/heirlooms-media/u1/art1/a.jpg"
    ∧ (reorganizeArtifactMedia reorgWitnessGraph reorgWitnessRows [] "u1"
        reorgWitnessMover).1.media_urls.get? 1 =
      some "https://p.supabase.co/storage/v1/object/public/heirlooms-media/temp/u/b.jpg"
    ∧ mapGet (reorganizeArtifactMedia reorgWitnessGraph reorgWitnessRows [] "u1"
        reorgWitnessMover).1.image_captions
        "https://p.supabase.co/storage/v1/object/public/heirlooms-media/temp/u/a.jpg" = none
    ∧ (mapGet (reorganizeArtifactMedia reorgWitnessGraph reorgWitnessRows [] "u1"
        reorgWitnessMover).1.image_captions
        "https://p.supabase.co/storage/v1/object/public/heirlooms-media/u1/art1/a.jpg").isSome
    ∧ (reorganizeArtifactMedia reorgWitnessGraph reorgWitnessRows [] "u1"
        reorgWitnessMover).2.get? 0 =
      some { id := "m1", user_id := "u1"
             storage_path := "https://p.supabase.co/storage/v1/object/public/heirlooms-media/u1/art1/a.jpg"
             public_url := "https://p.supabase.co/storage/v1/object/public/heirlooms-media/u1/art1/a.jpg" }
    ∧ (reorganizeArtifactMedia reorgWitnessGraph reorgWitnessRows [] "u1"
        reorgWitnessMover).2.get? 1 =
      some { id := "m2", user_id := "u1", storage_path := "temp/u/b.jpg"
             public_url := "https://p.supabase.co/storage/v1/object/public/heirlooms-media/temp/u/b.jpg" } := by
  have hfreshW : ∀ u n, u ∈ reorgAllUrls reorgWitnessGraph [] →
      reorgWitnessMover u = some n → n ≠ u →
      n ∉ reorgAllUrls reorgWitnessGraph [] := by
    intro u n hu hmv hne
    have hl : reorgAllUrls reorgWitnessGraph [] =
        ["https://p.supabase.co/storage/v1/object/public/heirlooms-media/temp/u/a.jpg",
         "https://p.supabase.co/storage/v1/object/public/heirlooms-media/temp/u/b.jpg"] := by
      decide
    rw [hl] at hu ⊢
    rcases List.mem_cons.mp hu with rfl | hu
    · have : reorgWitnessMover
          "https://p.supabase.co/storage/v1/object/public/heirlooms-media/temp/u/a.jpg" =
          some "https://p.supabase.co/storage/v1/object/public/heirlooms-media/u1/art1/a.jpg" := by
        decide
      rw [this] at hmv
      injection hmv with hmv
      rw [← hmv]
      decide
    · rcases List.mem_cons.mp hu with rfl | hu
      · have : reorgWitnessMover
            "https://p.supabase.co/storage/v1/object/public/heirlooms-media/temp/u/b.jpg" =
            none := by decide
        rw [this] at hmv
        cases hmv
      · simp at hu
  have hrowsW : ∀ r ∈ reorgWitnessRows, r.user_id = "u1" := by decide
  have h := reorganize_consistent reorgWitnessGraph reorgWitnessRows [] "u1"
    reorgWitnessMover
    (reorganizeArtifactMedia reorgWitnessGraph reorgWitnessRows [] "u1" reorgWitnessMover).1
    (reorganizeArtifactMedia reorgWitnessGraph reorgWitnessRows [] "u1" reorgWitnessMover).2
    rfl hfreshW hrowsW
  have hA := h "https://p.supabase.co/storage/v1/object/public/heirlooms-media/temp/u/a.jpg"
    (by decide)
  have hB := h "https://p.supabase.co/storage/v1/object/public/heirlooms-media/temp/u/b.jpg"
    (by decide)
  have hmgA : mapGet (buildMapping reorgWitnessMover (reorgAllUrls reorgWitnessGraph []))
      "https://p.supabase.co/storage/v1/object/public/heirlooms-media/temp/u/a.jpg" =
      some "https://p.supabase.co/storage/v1/object/public/heirlooms-media/u1/art1/a.jpg" := by
    decide
  have hmgB : mapGet (buildMapping reorgWitnessMover (reorgAllUrls reorgWitnessGraph []))
      "https://p.supabase.co/storage/v1/object/public/heirlooms-media/temp/u/b.jpg" = none := by
    decide
  have hAm := hA.2 _ hmgA
  have hBm := hB.1 hmgB
  refine ⟨hAm.1 0 (by decide), hBm.1 1 (by decide), hAm.2.2.2.2.2.1,
    hAm.2.2.2.2.1 (by decide), ?_, ?_⟩
  · exact hAm.2.2.2.2.2.2.2.2.2.2.1 0
      { id := "m1", user_id := "u1", storage_path := "temp/u/a.jpg"
        public_url := "https://p.supabase.co/storage/v1/object/public/heirlooms-media/temp/u/a.jpg" }
      (by decide) (by decide)
  · exact hBm.2.2.2.2.2 1
      { id := "m2", user_id := "u1", storage_path := "temp/u/b.jpg"
        public_url := "https://p.supabase.co/storage/v1/object/public/heirlooms-media/temp/u/b.jpg" }
      (by decide) (by decide)

/-! ## C10: the three-path `storage_path = public_url` theorem and its
concrete scenario -/

def tempC10Artifact : TempMigArtifact :=
  { id := "art1", user_id := "u1"
    graph := { media_urls := ["https://p.supabase.co/storage/v1/object/public/heirlooms-media/temp/u/a.jpg"]
               thumbnail_url := none, image_captions := []
               video_summaries := [], audio_transcripts := [] } }

def c10Rows : List UserMediaRow :=
  [{ id := "m1", user_id := "u1", storage_path := "temp/u/a.jpg"
     public_url := "https://p.supabase.co/storage/v1/object/public/heirlooms-media/temp/u/a.jpg" }]

def cloudC10Artifact : CloudArtifact :=
  { id := "c1", user_id := "u1", title := "t"
    graph := { media_urls := ["https://res.cloudinary.com/d/image/upload/v1/z.jpg"]
               thumbnail_url := none, image_captions := []
               video_summaries := [], audio_transcripts := [] } }

def cloudC10Outcome : String → MigOutcome := fun _ =>
  MigOutcome.ok "https://p.supabase.co/storage/v1/object/public/heirlooms-media/u1/c1/z.jpg"

def reorgC10Graph : RefGraph :=
  { media_urls := ["https://p.supabase.co/storage/v1/object/public/heirlooms-media/temp/u/c.jpg"]
    thumbnail_url := none, image_captions := []
    video_summaries := [], audio_transcripts := [] }

def reorgC10Mover : String → Option String := fun u =>
  if u = "https://p.supabase.co/storage/v1/object/public/heirlooms-media/temp/u/c.jpg" then
    some "https://p.supabase.co/storage/v1/object/public/heirlooms-media/u1/art1/c.jpg"
  else none

/-- C10: on all three relocation paths — the temp-folder migration script,
the Cloudinary migration script's `updateArtifactUrls`, and the Reorganizer —
every `user_media` row the operation rewrites ends with `storage_path` equal
to `public_url`, both being the full new public URL
(`getPublicUrl(newPath)`), not the storage-path component `newPath` itself;
and a matching row (owner-scoped on the temp-script and Reorganizer paths,
unscoped on the Cloudinary path, as in the source) is indeed rewritten into
that shape.  `houtcome` and `hmover` state the collaborator contract that
`uploadToSupabase` and `moveSupabaseFile` return constructed public URLs. -/
theorem userMedia_storage_path_full_url (supa : String) (storage : List String)
    (a : TempMigArtifact) (rows : List UserMediaRow)
    (ca : CloudArtifact) (outcome : String → MigOutcome)
    (houtcome : ∀ u n, outcome u = MigOutcome.ok n → ∃ q, n = getPublicUrl supa q)
    (g : RefGraph) (galleryUrls : List String) (caller : String)
    (mover : String → Option String)
    (hmover : ∀ u n, mover u = some n → ∃ q, n = getPublicUrl supa q) :
    List.Forall₂
      (fun r r' =>
        (r' = r ∨ (r'.storage_path = r'.public_url ∧
          ∃ q, r'.public_url = getPublicUrl supa q ∧ r'.public_url ≠ q))
        ∧ (r.user_id = a.user_id →
            (mapGet (migrateArtifactMedia supa storage a rows).mapping r.public_url).isSome →
            (r'.storage_path = r'.public_url ∧
              ∃ q, r'.public_url = getPublicUrl supa q ∧ r'.public_url ≠ q)))
      rows (migrateArtifactMedia supa storage a rows).rows
    ∧ List.Forall₂
      (fun r r' =>
        (r' = r ∨ (r'.storage_path = r'.public_url ∧
          ∃ q, r'.public_url = getPublicUrl supa q ∧ r'.public_url ≠ q))
        ∧ ((mapGet (migrateArtifact outcome ca).urlMappings r.public_url).isSome →
            (r'.storage_path = r'.public_url ∧
              ∃ q, r'.public_url = getPublicUrl supa q ∧ r'.public_url ≠ q)))
      rows (updateUserMediaRecords (migrateArtifact outcome ca).urlMappings rows)
    ∧ List.Forall₂
      (fun r r' =>
        (r' = r ∨ (r'.storage_path = r'.public_url ∧
          ∃ q, r'.public_url = getPublicUrl supa q ∧ r'.public_url ≠ q))
        ∧ (r.user_id = caller →
            (mapGet (buildMapping mover (reorgAllUrls g galleryUrls)) r.public_url).isSome →
            (r'.storage_path = r'.public_url ∧
              ∃ q, r'.public_url = getPublicUrl supa q ∧ r'.public_url ≠ q)))
      rows (reorganizeArtifactMedia g rows galleryUrls caller mover).2 := by
  refine ⟨?_, ?_, ?_⟩
  · have hshape : ∀ p ∈ (migrateArtifactMedia supa storage a rows).mapping,
        ∃ q, p.2 = getPublicUrl supa q := by
      have hm : (migrateArtifactMedia supa storage a rows).mapping =
          (tempMigMoved supa storage a).2 := by
        unfold migrateArtifactMedia
        split <;> rfl
      rw [hm]
      exact tempMigMapping_shape supa a.user_id a.id (tempUrlsOf a.graph)
        (storage, []) (by simp)
    have hsplit : ((migrateArtifactMedia supa storage a rows).mapping = [] ∧
        (migrateArtifactMedia supa storage a rows).rows = rows) ∨
        (migrateArtifactMedia supa storage a rows).rows =
          applyUserMediaUpdates a.user_id (migrateArtifactMedia supa storage a rows).mapping rows := by
      unfold migrateArtifactMedia
      split
      · rename_i hmm
        exact Or.inl ⟨hmm, rfl⟩
      · exact Or.inr rfl
    rcases hsplit with ⟨hmap0, hr⟩ | hr
    · rw [hr]
      refine List.forall₂_same.mpr ?_
      intro r _
      refine ⟨Or.inl rfl, fun _ hm => ?_⟩
      rw [hmap0] at hm
      simp [mapGet] at hm
    · rw [hr, applyUserMediaUpdates_eq_map]
      rw [List.forall₂_map_right_iff]
      refine List.forall₂_same.mpr ?_
      intro r hmem
      constructor
      · rcases rowFold_disj a.user_id supa _ hshape r with h | ⟨h1, q, h2⟩
        · exact Or.inl h
        · exact Or.inr ⟨h1, q, h2, h2 ▸ getPublicUrl_ne supa q⟩
      · intro howner hm
        rcases rowFold_updates_matching a.user_id supa _ hshape r howner hm with ⟨h1, q, h2⟩
        exact ⟨h1, q, h2, h2 ▸ getPublicUrl_ne supa q⟩
  · have hshapeB : ∀ p ∈ (migrateArtifact outcome ca).urlMappings,
        ∃ q, p.2 = getPublicUrl supa q :=
      migrateArtifact_mappings_shape supa outcome houtcome ca
    rw [updateUserMediaRecords_eq_map]
    rw [List.forall₂_map_right_iff]
    refine List.forall₂_same.mpr ?_
    intro r hmem
    constructor
    · rcases rowFoldAny_disj supa _ hshapeB r with h | ⟨h1, q, h2⟩
      · exact Or.inl h
      · exact Or.inr ⟨h1, q, h2, h2 ▸ getPublicUrl_ne supa q⟩
    · intro hm
      rcases rowFoldAny_updates_matching supa _ hshapeB r hm with ⟨h1, q, h2⟩
      exact ⟨h1, q, h2, h2 ▸ getPublicUrl_ne supa q⟩
  · have hshapeC : ∀ p ∈ buildMapping mover (reorgAllUrls g galleryUrls),
        ∃ q, p.2 = getPublicUrl supa q := by
      intro p hp
      exact hmover p.1 p.2 ((buildMapping_mem mover _ p hp).2.1)
    have hrr : (reorganizeArtifactMedia g rows galleryUrls caller mover).2 =
        (if buildMapping mover (reorgAllUrls g galleryUrls) = [] then
          (g, rows)
        else
          (rewriteGraph g (buildMapping mover (reorgAllUrls g galleryUrls)),
            applyUserMediaUpdates caller
              (buildMapping mover (reorgAllUrls g galleryUrls)) rows)).2 := rfl
    rw [hrr]
    by_cases hc : buildMapping mover (reorgAllUrls g galleryUrls) = []
    · rw [if_pos hc]
      show List.Forall₂ _ rows rows
      refine List.forall₂_same.mpr ?_
      intro r _
      refine ⟨Or.inl rfl, fun _ hm => ?_⟩
      rw [hc] at hm
      simp [mapGet] at hm
    · rw [if_neg hc]
      show List.Forall₂ _ rows (applyUserMediaUpdates caller _ rows)
      rw [applyUserMediaUpdates_eq_map]
      rw [List.forall₂_map_right_iff]
      refine List.forall₂_same.mpr ?_
      intro r hmem
      constructor
      · rcases rowFold_disj caller supa _ hshapeC r with h | ⟨h1, q, h2⟩
        · exact Or.inl h
        · exact Or.inr ⟨h1, q, h2, h2 ▸ getPublicUrl_ne supa q⟩
      · intro howner hm
        rcases rowFold_updates_matching caller supa _ hshapeC r howner hm
          with ⟨h1, q, h2⟩
        exact ⟨h1, q, h2, h2 ▸ getPublicUrl_ne supa q⟩

/-- Concrete instance for C10: a temp-folder move, a Cloudinary migration
and a reorganize, each rewriting the owner row that matches its mapping. -/
theorem userMedia_storage_path_full_url_witness :
    List.Forall₂
      (fun r r' =>
        (r' = r ∨ (r'.storage_path = r'.public_url ∧
          ∃ q, r'.public_url = getPublicUrl "https://p.supabase.co" q ∧ r'.public_url ≠ q))
        ∧ (r.user_id = tempC10Artifact.user_id →
            (mapGet (migrateArtifactMedia "https://p.supabase.co" ["temp/u/a.jpg"]
              tempC10Artifact c10Rows).mapping r.public_url).isSome →
            (r'.storage_path = r'.public_url ∧
              ∃ q, r'.public_url = getPublicUrl "https://p.supabase.co" q ∧ r'.public_url ≠ q)))
      c10Rows
      (migrateArtifactMedia "https://p.supabase.co" ["temp/u/a.jpg"] tempC10Artifact c10Rows).rows
    ∧ List.Forall₂
      (fun r r' =>
        (r' = r ∨ (r'.storage_path = r'.public_url ∧
          ∃ q, r'.public_url = getPublicUrl "https://p.supabase.co" q ∧ r'.public_url ≠ q))
        ∧ ((mapGet (migrateArtifact cloudC10Outcome cloudC10Artifact).urlMappings r.public_url).isSome →
            (r'.storage_path = r'.public_url ∧
              ∃ q, r'.public_url = getPublicUrl "https://p.supabase.co" q ∧ r'.public_url ≠ q)))
      c10Rows
      (updateUserMediaRecords (migrateArtifact cloudC10Outcome cloudC10Artifact).urlMappings c10Rows)
    ∧ List.Forall₂
      (fun r r' =>
        (r' = r ∨ (r'.storage_path = r'.public_url ∧
          ∃ q, r'.public_url = getPublicUrl "https://p.supabase.co" q ∧ r'.public_url ≠ q))
        ∧ (r.user_id = "u1" →
            (mapGet (buildMapping reorgC10Mover (reorgAllUrls reorgC10Graph []))
              r.public_url).isSome →
            (r'.storage_path = r'.public_url ∧
              ∃ q, r'.public_url = getPublicUrl "https://p.supabase.co" q ∧ r'.public_url ≠ q)))
      c10Rows
      (reorganizeArtifactMedia reorgC10Graph c10Rows [] "u1" reorgC10Mover).2 :=
  userMedia_storage_path_full_url "https://p.supabase.co" ["temp/u/a.jpg"]
    tempC10Artifact c10Rows cloudC10Artifact cloudC10Outcome
    (by
      intro u n h
      have h' : MigOutcome.ok
          "https://p.supabase.co/storage/v1/object/public/heirlooms-media/u1/c1/z.jpg" =
          MigOutcome.ok n := h
      exact ⟨"u1/c1/z.jpg", by rw [← MigOutcome.ok.inj h']; decide⟩)
    reorgC10Graph [] "u1" reorgC10Mover
    (by
      intro u n h
      have h' : (if u = "https://p.supabase.co/storage/v1/object/public/heirlooms-media/temp/u/c.jpg" then
          some "https://p.supabase.co/storage/v1/object/public/heirlooms-media/u1/art1/c.jpg"
        else none) = some n := h
      split at h'
      · exact ⟨"u1/art1/c.jpg", by rw [← Option.some.inj h']; decide⟩
      · simp at h')

end Heirlooms
